import Mathlib

/-!
# CI/CD cost dashboard: aggregation, selection, grouping and sort state

A shallow embedding of the derived-view code of the dashboard front end
(`DashboardPage.js`, `Repositories.js`, `TeamsPage.js`, `PlatformTeamsPage.js`,
`PlatformRepositoriesPage.js`) together with the properties established about it.

Modelling conventions.

* A JavaScript number is an exact rational (`ℚ`); rounding of doubles is not modelled.
* A field that may be absent (`undefined` or `null`) is an `Option`.
* `x || 0` on an optional number is `orZero x`.
* React state is passed explicitly: a handler is a function from the old state to the
  new one.
* `String.prototype.toLowerCase` belongs to the runtime; it is a parameter
  `toLowerCase : String → String` wherever the source calls it. The same holds for
  `toUpperCase`, for the conversion of a string to a number and for the order of strings.
* An asynchronous load is the sequence of its callbacks: a response that arrives, or a
  request that fails, is a state update, and responses are applied in the order in which
  they arrive.
* The chart descriptor is data; its `transform` is read as Vega-Lite documents it.
-/

/-- The JavaScript expression `x || 0` for an optional number `x`: an absent value and the
number `0` both give `0`, every other number gives itself. -/
def orZero (x : Option ℚ) : ℚ :=
  match x with
  | some v => if v = 0 then 0 else v
  | none => 0

/-- Lower-casing of the letters `A` to `Z`, the value of `toLowerCase` on ASCII strings; the
instance of the runtime function at which concrete inputs are evaluated. -/
def asciiLower (s : String) : String := ⟨s.data.map Char.toLower⟩

/-- Upper-casing of the letters `a` to `z`, the value of `toUpperCase` on ASCII strings. -/
def asciiUpper (s : String) : String := ⟨s.data.map Char.toUpper⟩

namespace DashboardPage

/-- One element of the `/platform-costs` response. -/
structure PlatformCost where
  platform : String
  total_cost_by_platform : Option ℚ
  total_jobs : Option ℚ
  failed_jobs : Option ℚ
  deriving DecidableEq

/-- The `/dashboard-summary` response (the fields the page reads). -/
structure DashboardSummary where
  total_enterprise_ci_cd_cost : ℚ
  total_runs_enterprise : ℚ
  failed_runs_enterprise : ℚ
  successful_runs_enterprise : ℚ
  deriving DecidableEq

/-- The object the four cards are rendered from. -/
structure Summary where
  totalCost : ℚ
  totalRuns : ℚ
  failedJobs : ℚ
  successfulJobs : ℚ
  deriving DecidableEq

/-- `const platforms = ["github", "gitlab", "bitbucket"]`. -/
def platforms : List String := ["github", "gitlab", "bitbucket"]

/-- Initial value of the `selectedPlatforms` state. -/
def initialSelectedPlatforms : List String := ["github", "gitlab", "bitbucket"]

/-- The updater `togglePlatform` passes to `setSelectedPlatforms`:
`prev.includes(platform) ? prev.filter((p) => p !== platform) : [...prev, platform]`. -/
def togglePlatform (prev : List String) (platform : String) : List String :=
  if platform ∈ prev then prev.filter (fun p => p != platform) else prev ++ [platform]

/-- The selection after the check boxes named in `toggles` were clicked in turn, starting
from the initial selection. -/
def selectionAfter (toggles : List String) : List String :=
  toggles.foldl togglePlatform initialSelectedPlatforms

/-- `const isAllSelected = selectedPlatforms.length === platforms.length`. -/
def isAllSelected (selectedPlatforms : List String) : Bool :=
  selectedPlatforms.length == platforms.length

/-- The object taken from the server response when `isAllSelected` holds. -/
def serverSummary (dashboardSummary : DashboardSummary) : Summary :=
  { totalCost := dashboardSummary.total_enterprise_ci_cd_cost
    totalRuns := dashboardSummary.total_runs_enterprise
    failedJobs := dashboardSummary.failed_runs_enterprise
    successfulJobs := dashboardSummary.successful_runs_enterprise }

/-- The callback given to `reduce`. -/
def reducer (acc : Summary) (curr : PlatformCost) : Summary :=
  { totalCost := acc.totalCost + orZero curr.total_cost_by_platform
    totalRuns := acc.totalRuns + orZero curr.total_jobs
    failedJobs := acc.failedJobs + orZero curr.failed_jobs
    successfulJobs :=
      acc.successfulJobs + (orZero curr.total_jobs - orZero curr.failed_jobs) }

/-- The initial accumulator `{ totalCost: 0, totalRuns: 0, failedJobs: 0, successfulJobs: 0 }`. -/
def zeroSummary : Summary :=
  { totalCost := 0, totalRuns := 0, failedJobs := 0, successfulJobs := 0 }

/-- The `filter(...)` of the local branch: the records whose lower-cased platform is
included in the selection. -/
def selectedCosts (toLowerCase : String → String) (platformCosts : List PlatformCost)
    (selectedPlatforms : List String) : List PlatformCost :=
  platformCosts.filter (fun p => decide (toLowerCase p.platform ∈ selectedPlatforms))

/-- The local branch of `summary`: `platformCosts.filter(...).reduce(..., zero)`. -/
def localSummary (toLowerCase : String → String) (platformCosts : List PlatformCost)
    (selectedPlatforms : List String) : Summary :=
  (selectedCosts toLowerCase platformCosts selectedPlatforms).foldl reducer zeroSummary

/-- The constant `summary` of the component body. -/
def summary (toLowerCase : String → String) (dashboardSummary : DashboardSummary)
    (platformCosts : List PlatformCost) (selectedPlatforms : List String) : Summary :=
  if isAllSelected selectedPlatforms then serverSummary dashboardSummary
  else localSummary toLowerCase platformCosts selectedPlatforms

/-- The reducer applied to every loaded record, without the platform filter. -/
def foldAll (platformCosts : List PlatformCost) : Summary :=
  platformCosts.foldl reducer zeroSummary

/-- Two numbers agree within a relative tolerance of `1e-6`. -/
def withinRelTol (a b : ℚ) : Prop :=
  |a - b| ≤ (1 / 1000000) * max |a| |b|

/-- Field-by-field agreement of two summaries within `1e-6` relative tolerance. -/
def Summary.agrees (s t : Summary) : Prop :=
  withinRelTol s.totalCost t.totalCost ∧ withinRelTol s.totalRuns t.totalRuns ∧
    withinRelTol s.failedJobs t.failedJobs ∧ withinRelTol s.successfulJobs t.successfulJobs

/-- Every platform of the universe is in the selection. -/
def selectsAll (selectedPlatforms : List String) : Prop :=
  ∀ p ∈ platforms, p ∈ selectedPlatforms

instance (selectedPlatforms : List String) : Decidable (selectsAll selectedPlatforms) := by
  unfold selectsAll; infer_instance

end DashboardPage

/-! ## Grouping by platform (`Repositories.js`, `TeamsPage.js`) -/

/-- The object `groups` of `groupBy`, by its own properties: the keys in the order in which
they were created, each with its array. (JavaScript lists keys that are array indices
before the others; nothing below depends on the order of the entries.) -/
abbrev Groups (α : Type) := List (String × List α)

/-- The property names an object literal inherits from `Object.prototype`. A lookup
`groups[name]` of such a name on an object without an own property `name` yields the
inherited member, which is truthy and has no method `push`. -/
def objectPrototypeNames : List String :=
  ["constructor", "__defineGetter__", "__defineSetter__", "hasOwnProperty",
   "__lookupGetter__", "__lookupSetter__", "isPrototypeOf", "propertyIsEnumerable",
   "toString", "valueOf", "__proto__", "toLocaleString"]

/-- The expression `repo.platform || "unknown"`: an absent or empty platform gives the
literal `"unknown"`. -/
def platformKey (platform : Option String) : String :=
  match platform with
  | some p => if p = "" then "unknown" else p
  | none => "unknown"

/-- The statement `groups[platform].push(repo)` when `platform` is an own key. -/
def pushTo {α : Type} (groups : Groups α) (platform : String) (repo : α) : Groups α :=
  groups.map (fun e => if e.1 = platform then (e.1, e.2 ++ [repo]) else e)

/-- The body of the `forEach` callback of `groupBy`; `none` is a thrown `TypeError`.

* `groups[platform]` is an own array (truthy): the record is pushed.
* `platform` is not an own key but names an inherited member: the test
  `!groups[platform]` is false, no array is created, and `groups[platform].push` is not a
  function.
* otherwise `groups[platform] = []` runs first, then the push. -/
def groupStep {α : Type} (platformOf : α → Option String) (groups : Groups α) (repo : α) :
    Option (Groups α) :=
  let platform := platformKey (platformOf repo)
  if platform ∈ groups.map Prod.fst then
    some (pushTo groups platform repo)
  else if platform ∈ objectPrototypeNames then
    none
  else
    some (pushTo (groups ++ [(platform, [])]) platform repo)

/-- The loop `repoList.forEach(...)` of `groupBy`, started on the object `groups`. -/
def forEachGroup {α : Type} (platformOf : α → Option String) :
    Groups α → List α → Option (Groups α)
  | groups, [] => some groups
  | groups, repo :: rest =>
    match groupStep platformOf groups repo with
    | some groups1 => forEachGroup platformOf groups1 rest
    | none => none

/-- The function `groupBy` of both pages, for records whose platform is read by
`platformOf`: `const groups = {}; list.forEach(...); return groups`. -/
def groupByPlatform {α : Type} (platformOf : α → Option String) (list : List α) :
    Option (Groups α) :=
  forEachGroup platformOf [] list

/-- The `Object.entries(grouped)` arrays concatenated group by group. -/
def concatGroups {α : Type} (groups : Groups α) : List α :=
  groups.flatMap Prod.snd

/-- The sort state of `Repositories` and `TeamsPage`. -/
structure ListSortState where
  sortKey : String
  sortOrder : String
  deriving DecidableEq

namespace Repositories

/-- One element of `response.data.repositories`. -/
structure Repo where
  repo_name : String
  team_name : Option String
  platform : Option String
  total_jobs : Option ℚ
  total_cost : Option ℚ
  deriving DecidableEq

/-- The keys of `sortOptions`, in order. -/
def sortOptions : List String := ["total_cost", "total_jobs", "repo_name", "platform"]

/-- Initial `sortKey` and `sortOrder`. -/
def initialSortState : ListSortState := { sortKey := "total_cost", sortOrder := "desc" }

/-- The handler `handleSortChange`, with `key = e.target.value`. -/
def handleSortChange (_prev : ListSortState) (key : String) : ListSortState :=
  { sortKey := key
    sortOrder := if key = "repo_name" ∨ key = "platform" then "asc" else "desc" }

/-- The function `groupBy`. -/
def groupBy (repoList : List Repo) : Option (Groups Repo) :=
  groupByPlatform Repo.platform repoList

end Repositories

namespace TeamsPage

/-- One element of the `/teams` response. -/
structure Team where
  team_name : String
  platform : Option String
  total_jobs : Option ℚ
  total_cost : Option ℚ
  depth : Option ℚ
  deriving DecidableEq

/-- The keys of `sortOptions`, in order. -/
def sortOptions : List String := ["total_cost", "total_jobs", "team_name", "platform"]

/-- Initial `sortKey` and `sortOrder`. -/
def initialSortState : ListSortState := { sortKey := "total_cost", sortOrder := "desc" }

/-- The handler `handleSortChange`, with `key = e.target.value`. -/
def handleSortChange (_prev : ListSortState) (key : String) : ListSortState :=
  { sortKey := key
    sortOrder := if key = "team_name" ∨ key = "platform" then "asc" else "desc" }

/-- The function `groupBy`. -/
def groupBy (teamsList : List Team) : Option (Groups Team) :=
  groupByPlatform Team.platform teamsList

end TeamsPage

/-! ## Column sorting (`PlatformTeamsPage.js`, `PlatformRepositoriesPage.js`) -/

/-- A scalar held by a field of a loaded row. -/
inductive Value where
  | number (q : ℚ)
  | string (s : String)
  deriving DecidableEq

/-- A loaded row: its scalar fields by name; a field that is absent or `null` has no
entry. -/
abbrev Row := List (String × Value)

/-- The conversion `ToNumber` that the operator `-` applies to an operand; `none` is `NaN`.
The conversion of a string belongs to the runtime and is the parameter
`stringToNumber`. -/
def Value.toNumber (stringToNumber : String → Option ℚ) : Value → Option ℚ
  | Value.number q => some q
  | Value.string s => stringToNumber s

/-- The operator `-` on two converted operands; `NaN` when either is `NaN`. -/
def jsSub (x y : Option ℚ) : Option ℚ :=
  match x, y with
  | some a, some b => some (a - b)
  | _, _ => none

/-- The method `Array.prototype.sort` with a comparator: the sort is stable and a
comparator result `NaN` counts as `0`, as ECMAScript prescribes; for a consistent
comparator this fixes the result. Modelled by an insertion sort that places an element
before the first one it does not compare greater than. -/
def arraySort {α : Type} (compareFn : α → α → Option ℚ) (l : List α) : List α :=
  l.insertionSort (fun a b => (compareFn a b).getD 0 ≤ 0)

/-- The sort state of the two per-platform pages. -/
@[ext]
structure SortState where
  sortBy : String
  sortOrder : String
  deriving DecidableEq

/-- The comparator of `sortedTeams` and `sortedRepos`:
`aVal = a[sortBy] ?? 0; bVal = b[sortBy] ?? 0;
return sortOrder === 'asc' ? aVal - bVal : bVal - aVal`. -/
def compareRows (stringToNumber : String → Option ℚ) (state : SortState) (a b : Row) :
    Option ℚ :=
  let aVal := (a.lookup state.sortBy).getD (Value.number 0)
  let bVal := (b.lookup state.sortBy).getD (Value.number 0)
  if state.sortOrder = "asc" then
    jsSub (aVal.toNumber stringToNumber) (bVal.toNumber stringToNumber)
  else
    jsSub (bVal.toNumber stringToNumber) (aVal.toNumber stringToNumber)

namespace PlatformTeamsPage

/-- Initial `sortBy` and `sortOrder`. -/
def initialSortState : SortState := { sortBy := "total_cost", sortOrder := "desc" }

/-- The columns whose header, or whose entry of the sort drop-down, calls `handleSort`. -/
def sortColumns : List String :=
  ["team_name", "parent_team_name", "total_jobs", "total_cost", "depth"]

/-- The handler `handleSort`. -/
def handleSort (state : SortState) (column : String) : SortState :=
  if state.sortBy = column then
    { state with sortOrder := if state.sortOrder = "asc" then "desc" else "asc" }
  else
    { sortBy := column, sortOrder := "desc" }

/-- The constant `sortedTeams`: `[...teams].sort(...)`. -/
def sortedTeams (stringToNumber : String → Option ℚ) (teams : List Row)
    (state : SortState) : List Row :=
  arraySort (compareRows stringToNumber state) teams

end PlatformTeamsPage

namespace PlatformRepositoriesPage

/-- Initial `sortBy` and `sortOrder`. -/
def initialSortState : SortState := { sortBy := "total_cost", sortOrder := "desc" }

/-- The columns whose header, or whose entry of the sort drop-down, calls `handleSort`. -/
def sortColumns : List String := ["repo_name", "team_name", "total_jobs", "total_cost"]

/-- The handler `handleSort`. -/
def handleSort (state : SortState) (column : String) : SortState :=
  if state.sortBy = column then
    { state with sortOrder := if state.sortOrder = "asc" then "desc" else "asc" }
  else
    { sortBy := column, sortOrder := "desc" }

/-- The constant `sortedRepos`: `[...repos].sort(...)`. -/
def sortedRepos (stringToNumber : String → Option ℚ) (repos : List Row)
    (state : SortState) : List Row :=
  arraySort (compareRows stringToNumber state) repos

end PlatformRepositoriesPage

/-- The columns of the per-platform tables that hold strings. -/
def stringColumns : List String := ["team_name", "parent_team_name", "repo_name"]

/-- The columns of the per-platform tables that hold numbers. -/
def numericColumns : List String := ["total_cost", "total_jobs", "depth"]

/-- The sort order is one of the two values the pages ever store. -/
def SortState.orderValid (state : SortState) : Prop :=
  state.sortOrder = "asc" ∨ state.sortOrder = "desc"

/-- What `groupBy` is meant to return for the input `list`: the keys are pairwise distinct
and are exactly the platform keys of the input, and each key holds the records of the
input with that platform key, in input order. -/
def IsGrouping {α : Type} (platformOf : α → Option String) (groups : Groups α)
    (list : List α) : Prop :=
  (groups.map Prod.fst).Nodup ∧
  (∀ k, k ∈ groups.map Prod.fst ↔ ∃ r ∈ list, platformKey (platformOf r) = k) ∧
  (∀ e ∈ groups, e.2 = list.filter (fun r => decide (platformKey (platformOf r) = e.1)))

/-- No record of the list has a platform key that names a member of `Object.prototype`. -/
def SafeKeys {α : Type} (platformOf : α → Option String) (list : List α) : Prop :=
  ∀ r ∈ list, platformKey (platformOf r) ∉ objectPrototypeNames

/-! ## Chart descriptor (`DashboardPage.js`) -/

namespace DashboardPage

/-- One element of `data.values` of the bar descriptor: `{ type, count }`. -/
structure JobCount where
  type : String
  count : ℚ
  deriving DecidableEq

/-- One element of `data.values` of the arc descriptor: `{ platform, cost }`. -/
structure PlatformShare where
  platform : String
  cost : ℚ
  deriving DecidableEq

/-- The object `spec` handed to `vegaEmbed`. The two object literals of the source differ
from run to run only in `data.values`, which is what a constructor carries; everything
else (schema, size, mark, encoding, and for the arc the `transform` array) is constant:

* `bar`: description "Job Breakdown", mark "bar", x = `type`, y = `count`;
* `arc`: description "Platform Cost Breakdown", mark "arc", theta = `cost`, color =
  `platform`, transforms `window sum(cost) as TotalCost`,
  `Percent = datum.cost / datum.TotalCost * 100`, `PercentLabel`. -/
inductive ChartSpec where
  | bar (values : List JobCount)
  | arc (values : List PlatformShare)
  deriving DecidableEq

/-- The field `mark` of the descriptor. -/
def ChartSpec.mark : ChartSpec → String
  | ChartSpec.bar _ => "bar"
  | ChartSpec.arc _ => "arc"

/-- The field `description` of the descriptor. -/
def ChartSpec.description : ChartSpec → String
  | ChartSpec.bar _ => "Job Breakdown"
  | ChartSpec.arc _ => "Platform Cost Breakdown"

/-- The expression `p.platform.charAt(0).toUpperCase() + p.platform.slice(1)`; the runtime
function `toUpperCase` is a parameter. -/
def capitalize (toUpperCase : String → String) (platform : String) : String :=
  match platform.data with
  | [] => toUpperCase ""
  | c :: cs => toUpperCase (String.mk [c]) ++ String.mk cs

/-- The descriptor built in the `then` callback of the `/platform-costs` request, for the
response `data`, the selection of the render that started the effect, and whether
`pieChartContainerRef.current` is set; `none` is the early `return` (nothing is embedded).

`filtered[0]` is the first matching record; the guard before it excludes the empty
list. -/
def chartSpec (toLowerCase toUpperCase : String → String) (containerMounted : Bool)
    (data : List PlatformCost) (selectedPlatforms : List String) : Option ChartSpec :=
  let filtered := data.filter (fun d => decide (toLowerCase d.platform ∈ selectedPlatforms))
  if !containerMounted || filtered.length == 0 then none
  else
    let onlyOnePlatform := selectedPlatforms.length == 1
    if onlyOnePlatform then
      match filtered with
      | platformData :: _ =>
        let totalJobs := orZero platformData.total_jobs
        let failedJobs := orZero platformData.failed_jobs
        let successfulJobs := totalJobs - failedJobs
        some (ChartSpec.bar
          [{ type := "Successful Jobs", count := successfulJobs },
           { type := "Failed Jobs", count := failedJobs }])
      | [] => none
    else
      some (ChartSpec.arc (filtered.map (fun p =>
        { platform := capitalize toUpperCase p.platform
          cost := orZero p.total_cost_by_platform })))

/-- The field `TotalCost` that Vega-Lite computes for the rows, in data order, from the
transform `{ window: [{ op: "sum", field: "cost", as: "TotalCost" }] }`. The transform
names neither `frame` nor `sort`; Vega-Lite documents the default frame `[null, 0]`
("the current object and all preceding objects") and, without `sort`, processes the rows
in the order observed with no peers. `TotalCost` of a row is therefore the sum of `cost`
over that row and the rows before it, `acc` being the sum of the rows already passed. -/
def windowSum (acc : ℚ) : List ℚ → List ℚ
  | [] => []
  | cost :: rest => (acc + cost) :: windowSum (acc + cost) rest

/-- The expression `datum.cost / datum.TotalCost * 100` of the second transform; `none`
is the non-finite result of a division by zero. -/
def percentOf (cost totalCost : ℚ) : Option ℚ :=
  if totalCost = 0 then none else some (cost / totalCost * 100)

/-- The field `Percent` of every row of the arc descriptor, in data order. -/
def percents (values : List PlatformShare) : List (Option ℚ) :=
  List.zipWith percentOf (values.map PlatformShare.cost)
    (windowSum 0 (values.map PlatformShare.cost))

/-- Replaces each absent numeric field of a record by `0`. -/
def withZeros (r : PlatformCost) : PlatformCost :=
  { r with
    total_cost_by_platform := some (r.total_cost_by_platform.getD 0)
    total_jobs := some (r.total_jobs.getD 0)
    failed_jobs := some (r.failed_jobs.getD 0) }

/-- The data a load of the dashboard writes. -/
structure LoadState where
  dashboardSummary : Option DashboardSummary
  platformCosts : List PlatformCost
  deriving DecidableEq

/-- A run of the effect: its position in the order of issue and the two responses its
requests will receive. -/
structure Load where
  issued : Nat
  summaryData : DashboardSummary
  costsData : List PlatformCost
  deriving DecidableEq

/-- A response arriving: the `then` callback of one of the two requests of a load runs. -/
inductive LoadEvent where
  | summaryResolved (load : Load)
  | costsResolved (load : Load)
  deriving DecidableEq

/-- The state updates of the two callbacks: `setDashboardSummary(data)` and
`setPlatformCosts(data)`. Neither looks at which run of the effect issued the request. -/
def applyEvent (state : LoadState) : LoadEvent → LoadState
  | LoadEvent.summaryResolved load => { state with dashboardSummary := some load.summaryData }
  | LoadEvent.costsResolved load => { state with platformCosts := load.costsData }

/-- The state after the responses arrived in the order given. -/
def applyEvents (state : LoadState) (events : List LoadEvent) : LoadState :=
  events.foldl applyEvent state

end DashboardPage

/-! ## Loading (`PlatformTeamsPage.js`, `PlatformRepositoriesPage.js`, `Repositories.js`,
`TeamsPage.js`) -/

namespace PlatformTeamsPage

/-- The data a load of the page writes. -/
structure LoadState where
  summary : Option Row
  teams : List Row
  deriving DecidableEq

/-- A run of the effect: its position in the order of issue and the two responses its
requests will receive. -/
structure Load where
  issued : Nat
  summaryData : Row
  teamsData : List Row
  deriving DecidableEq

/-- A response arriving: `fetchTeamSummary` or `fetchTeams` of one load resumes after its
`await`. -/
inductive LoadEvent where
  | summaryResolved (load : Load)
  | teamsResolved (load : Load)
  deriving DecidableEq

/-- The state updates `setSummary(data)` and `setTeams(data)`. Neither looks at which run
of the effect issued the request. -/
def applyEvent (state : LoadState) : LoadEvent → LoadState
  | LoadEvent.summaryResolved load => { state with summary := some load.summaryData }
  | LoadEvent.teamsResolved load => { state with teams := load.teamsData }

/-- The state after the responses arrived in the order given. -/
def applyEvents (state : LoadState) (events : List LoadEvent) : LoadState :=
  events.foldl applyEvent state

end PlatformTeamsPage

namespace PlatformRepositoriesPage

/-- The data a load of the page writes. -/
structure LoadState where
  summary : Option Row
  repos : List Row
  deriving DecidableEq

/-- How the body of the `try` block ends: a request or the parsing of a response throws
(`failed`), or both responses are parsed; `reposData` is `none` when the parsed value is
not an array. -/
inductive Outcome where
  | failed
  | loaded (summaryData : Row) (reposData : Option (List Row))
  deriving DecidableEq

/-- The function `fetchSummaryAndRepos`, as a state update. Every `await` precedes both
setters, so a failure reaches the `catch` block with the state untouched; the `catch`
block runs `setRepos([])`. -/
def fetchSummaryAndRepos (state : LoadState) : Outcome → LoadState
  | Outcome.loaded summaryData reposData =>
    { summary := some summaryData, repos := reposData.getD [] }
  | Outcome.failed => { state with repos := [] }

end PlatformRepositoriesPage

namespace Repositories

/-- The object `response.data.summary`, by the fields the page shows; `{}` has none. -/
structure RepoSummary where
  most_expensive_repo : Option String
  most_jobs_repo : Option String
  cheapest_repo : Option String
  deriving DecidableEq

/-- The data a load of the page writes. -/
structure LoadState where
  repos : List Repo
  summary : Option RepoSummary
  deriving DecidableEq

/-- How the body of the `try` block ends: `axios.get` rejects or `response.data` cannot be
read (`failed`), or the response carries the two optional members. -/
inductive Outcome where
  | failed
  | responded (repositories : Option (List Repo)) (summary : Option RepoSummary)
  deriving DecidableEq

/-- The function `fetchData`, as a state update: `setRepos(response.data.repositories ||
[])` and `setSummary(response.data.summary || {})`; the `catch` block only logs. -/
def fetchData (state : LoadState) : Outcome → LoadState
  | Outcome.responded repositories summary =>
    { repos := repositories.getD []
      summary := some (summary.getD
        { most_expensive_repo := none, most_jobs_repo := none, cheapest_repo := none }) }
  | Outcome.failed => state

/-- The field read by `a[sortKey]`; `none` is `undefined`. -/
def Repo.get (r : Repo) (key : String) : Option Value :=
  if key = "repo_name" then some (Value.string r.repo_name)
  else if key = "team_name" then r.team_name.map Value.string
  else if key = "platform" then r.platform.map Value.string
  else if key = "total_jobs" then r.total_jobs.map Value.number
  else if key = "total_cost" then r.total_cost.map Value.number
  else none

end Repositories

/-- The operator `x < y` on two field values. Two strings are compared as strings, by the
runtime order `stringLess`; otherwise both operands are converted to numbers, and the
result is `false` when either is `undefined` or converts to `NaN`. -/
def jsLess (stringLess : String → String → Bool) (stringToNumber : String → Option ℚ)
    (x y : Option Value) : Bool :=
  match x, y with
  | some (Value.string s), some (Value.string t) => stringLess s t
  | some a, some b =>
    match a.toNumber stringToNumber, b.toNumber stringToNumber with
    | some p, some q => decide (p < q)
    | _, _ => false
  | _, _ => false

/-- The comparator of `sortedFilteredRepos` and `sortedFilteredTeams`, on the two key
values `a[sortKey]` and `b[sortKey]`:
`if (sortOrder === "asc") return a[sortKey] > b[sortKey] ? 1 : -1;
return a[sortKey] < b[sortKey] ? 1 : -1;` where `x > y` is `y < x`. -/
def compareKeys (stringLess : String → String → Bool) (stringToNumber : String → Option ℚ)
    (sortOrder : String) (aKey bKey : Option Value) : Int :=
  if sortOrder = "asc" then
    if jsLess stringLess stringToNumber bKey aKey then 1 else -1
  else
    if jsLess stringLess stringToNumber aKey bKey then 1 else -1

namespace Repositories

/-- The comparator passed to `sort` in `sortedFilteredRepos`. -/
def compareRepos (stringLess : String → String → Bool) (stringToNumber : String → Option ℚ)
    (state : ListSortState) (a b : Repo) : Int :=
  compareKeys stringLess stringToNumber state.sortOrder (a.get state.sortKey)
    (b.get state.sortKey)

end Repositories

namespace TeamsPage

/-- The object given to `setSummary`. -/
structure TeamSummary where
  most_expensive_team : String
  team_with_most_jobs : String
  deepest_team : String
  deriving DecidableEq

/-- The data a load of the page writes. -/
structure LoadState where
  teams : List Team
  summary : Option TeamSummary
  deriving DecidableEq

/-- How the body of the `try` block ends: `axios.get` rejects (`failed`), or the response
carries the list of teams. -/
inductive Outcome where
  | failed
  | responded (teamsData : List Team)
  deriving DecidableEq

/-- The expression `[...teamsData].sort((a, b) => b.f - a.f)[0]?.team_name || 'N/A'` for
the numeric field `f`; an absent field is `undefined`, whose difference is `NaN`. -/
def topTeamName (f : Team → Option ℚ) (teamsData : List Team) : String :=
  match (arraySort (fun a b => jsSub (f b) (f a)) teamsData).head? with
  | some team => if team.team_name = "" then "N/A" else team.team_name
  | none => "N/A"

/-- The function `fetchData`, as a state update; the `catch` block only logs. -/
def fetchData (state : LoadState) : Outcome → LoadState
  | Outcome.responded teamsData =>
    { teams := teamsData
      summary := some
        { most_expensive_team := topTeamName Team.total_cost teamsData
          team_with_most_jobs := topTeamName Team.total_jobs teamsData
          deepest_team := topTeamName Team.depth teamsData } }
  | Outcome.failed => state

/-- The field read by `a[sortKey]`; `none` is `undefined`. -/
def Team.get (t : Team) (key : String) : Option Value :=
  if key = "team_name" then some (Value.string t.team_name)
  else if key = "platform" then t.platform.map Value.string
  else if key = "total_jobs" then t.total_jobs.map Value.number
  else if key = "total_cost" then t.total_cost.map Value.number
  else if key = "depth" then t.depth.map Value.number
  else none

/-- The comparator passed to `sort` in `sortedFilteredTeams`. -/
def compareTeams (stringLess : String → String → Bool) (stringToNumber : String → Option ℚ)
    (state : ListSortState) (a b : Team) : Int :=
  compareKeys stringLess stringToNumber state.sortOrder (a.get state.sortKey)
    (b.get state.sortKey)

end TeamsPage

/-- The number a row contributes to a numeric sort column: the value of the column, and
`0` when the row has none (`a[sortBy] ?? 0`). -/
def columnValue (column : String) (row : Row) : ℚ :=
  match row.lookup column with
  | some (Value.number q) => q
  | _ => 0

/-- Every value the rows hold in the column is a number. -/
def NumericColumn (column : String) (rows : List Row) : Prop :=
  ∀ row ∈ rows, ∀ s : String, row.lookup column ≠ some (Value.string s)

/-- Two key values are mutually comparable: both are numbers or both are strings. -/
def Comparable : Value → Value → Prop
  | Value.number _, Value.number _ => True
  | Value.string _, Value.string _ => True
  | _, _ => False

/-- The first of two mutually comparable key values is strictly less than the second:
numbers by their order, strings by the runtime order `stringLess`. -/
def keyLess (stringLess : String → String → Bool) : Value → Value → Prop
  | Value.number p, Value.number q => p < q
  | Value.string s, Value.string t => stringLess s t = true
  | _, _ => False

/-! ## Selection states of the dashboard -/

namespace DashboardPage

theorem togglePlatform_nodup (prev : List String) (platform : String) (h : prev.Nodup) :
    (togglePlatform prev platform).Nodup := by
  unfold togglePlatform
  split
  · exact h.filter _
  · rename_i hmem
    exact List.Nodup.append h (List.nodup_singleton _) (by simpa using hmem)

theorem togglePlatform_subset (prev : List String) (platform : String)
    (h : prev ⊆ platforms) (hp : platform ∈ platforms) :
    togglePlatform prev platform ⊆ platforms := by
  unfold togglePlatform
  split
  · exact fun x hx => h (List.mem_filter.mp hx).1
  · intro x hx
    rcases List.mem_append.mp hx with hx | hx
    · exact h hx
    · rw [List.mem_singleton.mp hx]; exact hp

/-- Toggling from a duplicate-free selection inside the universe stays there. -/
theorem foldl_toggle_invariant (toggles : List String) :
    ∀ start : List String, start.Nodup → start ⊆ platforms →
      (∀ p ∈ toggles, p ∈ platforms) →
      (toggles.foldl togglePlatform start).Nodup ∧
        toggles.foldl togglePlatform start ⊆ platforms := by
  induction toggles with
  | nil => intro start hn hs _; exact ⟨hn, hs⟩
  | cons t ts ih =>
    intro start hn hs ht
    have ht0 : t ∈ platforms := ht t (List.mem_cons_self _ _)
    exact ih _ (togglePlatform_nodup _ _ hn) (togglePlatform_subset _ _ hs ht0)
      (fun p hp => ht p (List.mem_cons_of_mem _ hp))

theorem selectionAfter_invariant (toggles : List String)
    (h : ∀ p ∈ toggles, p ∈ platforms) :
    (selectionAfter toggles).Nodup ∧ selectionAfter toggles ⊆ platforms :=
  foldl_toggle_invariant toggles initialSelectedPlatforms (by decide)
    (by intro x hx; exact hx) h

/-- On a duplicate-free selection inside the universe, the length test of the source is
the test that every platform is selected. -/
theorem isAllSelected_iff_selectsAll (sel : List String) (hn : sel.Nodup)
    (hs : sel ⊆ platforms) : isAllSelected sel = true ↔ selectsAll sel := by
  have hle : sel.length ≤ platforms.length := (List.subperm_of_subset hn hs).length_le
  have hpn : platforms.Nodup := by decide
  unfold isAllSelected selectsAll
  rw [beq_iff_eq]
  constructor
  · intro hlen p hp
    have hperm : sel.Perm platforms :=
      (List.subperm_of_subset hn hs).perm_of_length_le (le_of_eq hlen.symm)
    exact hperm.symm.subset hp
  · intro hall
    have hge : platforms.length ≤ sel.length :=
      (List.subperm_of_subset hpn (fun p hp => hall p hp)).length_le
    exact le_antisymm hle hge

theorem foldl_reducer (l : List PlatformCost) :
    ∀ acc : Summary, l.foldl reducer acc =
      { totalCost := acc.totalCost + (l.map (fun r => orZero r.total_cost_by_platform)).sum
        totalRuns := acc.totalRuns + (l.map (fun r => orZero r.total_jobs)).sum
        failedJobs := acc.failedJobs + (l.map (fun r => orZero r.failed_jobs)).sum
        successfulJobs := acc.successfulJobs +
          (l.map (fun r => orZero r.total_jobs - orZero r.failed_jobs)).sum } := by
  induction l with
  | nil => intro acc; simp
  | cons r rs ih =>
    intro acc
    rw [List.foldl_cons, ih]
    simp [reducer, add_assoc]

/-- C1. For every loaded platform-cost list and every selection reached by toggling
platforms of the universe that does not hold all three platforms, `summary` is the four
sums (cost, jobs, failed jobs, jobs minus failed jobs, absent fields as 0) over exactly the
records whose lower-cased platform is in the selection. -/
theorem summary_eq_sums_of_not_all (toLowerCase : String → String)
    (dashboardSummary : DashboardSummary) (platformCosts : List PlatformCost)
    (toggles : List String) (htoggles : ∀ p ∈ toggles, p ∈ platforms)
    (hnot : ¬ selectsAll (selectionAfter toggles)) :
    summary toLowerCase dashboardSummary platformCosts (selectionAfter toggles) =
      { totalCost :=
          ((platformCosts.filter
              (fun r => decide (toLowerCase r.platform ∈ selectionAfter toggles))).map
            (fun r => orZero r.total_cost_by_platform)).sum
        totalRuns :=
          ((platformCosts.filter
              (fun r => decide (toLowerCase r.platform ∈ selectionAfter toggles))).map
            (fun r => orZero r.total_jobs)).sum
        failedJobs :=
          ((platformCosts.filter
              (fun r => decide (toLowerCase r.platform ∈ selectionAfter toggles))).map
            (fun r => orZero r.failed_jobs)).sum
        successfulJobs :=
          ((platformCosts.filter
              (fun r => decide (toLowerCase r.platform ∈ selectionAfter toggles))).map
            (fun r => orZero r.total_jobs - orZero r.failed_jobs)).sum } := by
  obtain ⟨hn, hs⟩ := selectionAfter_invariant toggles htoggles
  have hfalse : isAllSelected (selectionAfter toggles) = false := by
    rw [Bool.eq_false_iff]
    exact fun h => hnot ((isAllSelected_iff_selectsAll _ hn hs).mp h)
  unfold summary localSummary selectedCosts
  rw [hfalse, foldl_reducer]
  simp [zeroSummary]

/-- The example of the specification: records a (github: 10 jobs, 2 failed, cost 5) and
b (gitlab: 5 jobs, 5 failed, cost 15), with github and gitlab selected, give the summary
`{totalCost: 20, totalRuns: 15, failedJobs: 7, successfulJobs: 8}`. -/
theorem summary_eq_sums_of_not_all_witness :
    (∀ p ∈ ["bitbucket"], p ∈ platforms) ∧ ¬ selectsAll (selectionAfter ["bitbucket"]) ∧
    selectionAfter ["bitbucket"] = ["github", "gitlab"] ∧
    summary asciiLower ⟨0, 0, 0, 0⟩
      [⟨"github", some 5, some 10, some 2⟩, ⟨"gitlab", some 15, some 5, some 5⟩]
      (selectionAfter ["bitbucket"]) =
      { totalCost := 20, totalRuns := 15, failedJobs := 7, successfulJobs := 8 } := by
  refine ⟨by decide, by decide, by decide, ?_⟩
  rw [summary_eq_sums_of_not_all asciiLower ⟨0, 0, 0, 0⟩
    [⟨"github", some 5, some 10, some 2⟩, ⟨"gitlab", some 15, some 5, some 5⟩]
    ["bitbucket"] (by decide) (by decide)]
  have hsel : selectionAfter ["bitbucket"] = ["github", "gitlab"] := by decide
  rw [hsel]
  have h1 : asciiLower "github" = "github" := by decide
  have h2 : asciiLower "gitlab" = "gitlab" := by decide
  simp [List.filter, h1, h2, orZero]
  norm_num

theorem foldAll_eq_sums (platformCosts : List PlatformCost) :
    foldAll platformCosts =
      { totalCost := (platformCosts.map (fun r => orZero r.total_cost_by_platform)).sum
        totalRuns := (platformCosts.map (fun r => orZero r.total_jobs)).sum
        failedJobs := (platformCosts.map (fun r => orZero r.failed_jobs)).sum
        successfulJobs :=
          (platformCosts.map (fun r => orZero r.total_jobs - orZero r.failed_jobs)).sum } := by
  unfold foldAll
  rw [foldl_reducer]
  simp [zeroSummary]

theorem mem_iff_of_selectsAll (sel : List String) (hs : sel ⊆ platforms) :
    selectsAll sel ↔ ∀ p, p ∈ sel ↔ p ∈ platforms :=
  ⟨fun h p => ⟨fun hp => hs hp, fun hp => h p hp⟩, fun h p hp => (h p).mpr hp⟩

/-- C2. In every selection reached from the initial one by toggling platforms of the
universe: the guard `isAllSelected` holds iff the selected set is the universe; the
displayed summary is the server aggregate for all loaded data iff the selected set is the
universe; and in every other such state it is the local fold over the filtered list. -/
theorem summary_server_iff_universe (toggles : List String)
    (htoggles : ∀ p ∈ toggles, p ∈ platforms) :
    (isAllSelected (selectionAfter toggles) = true ↔
        ∀ p, p ∈ selectionAfter toggles ↔ p ∈ platforms) ∧
    ((∀ (toLowerCase : String → String) (dashboardSummary : DashboardSummary)
          (platformCosts : List PlatformCost),
          summary toLowerCase dashboardSummary platformCosts (selectionAfter toggles) =
            serverSummary dashboardSummary) ↔
        ∀ p, p ∈ selectionAfter toggles ↔ p ∈ platforms) ∧
    ((¬ ∀ p, p ∈ selectionAfter toggles ↔ p ∈ platforms) →
        ∀ (toLowerCase : String → String) (dashboardSummary : DashboardSummary)
          (platformCosts : List PlatformCost),
          summary toLowerCase dashboardSummary platformCosts (selectionAfter toggles) =
            localSummary toLowerCase platformCosts (selectionAfter toggles)) := by
  obtain ⟨hn, hs⟩ := selectionAfter_invariant toggles htoggles
  have hguard : isAllSelected (selectionAfter toggles) = true ↔
      ∀ p, p ∈ selectionAfter toggles ↔ p ∈ platforms :=
    (isAllSelected_iff_selectsAll _ hn hs).trans (mem_iff_of_selectsAll _ hs)
  refine ⟨hguard, ⟨?_, ?_⟩, ?_⟩
  · intro h
    by_contra hne
    have hfalse : isAllSelected (selectionAfter toggles) = false := by
      rw [Bool.eq_false_iff]; exact fun hg => hne (hguard.mp hg)
    have h0 := h id ⟨1, 1, 1, 1⟩ []
    simp [summary, hfalse, localSummary, selectedCosts, zeroSummary, serverSummary] at h0
  · intro h toLowerCase dashboardSummary platformCosts
    simp [summary, hguard.mpr h]
  · intro hne toLowerCase dashboardSummary platformCosts
    have hfalse : isAllSelected (selectionAfter toggles) = false := by
      rw [Bool.eq_false_iff]; exact fun hg => hne (hguard.mp hg)
    simp [summary, hfalse]

/-- With gitlab toggled off the page shows the local fold, whatever was loaded. -/
theorem summary_server_iff_universe_witness :
    (∀ p ∈ ["gitlab"], p ∈ platforms) ∧
    ∀ (toLowerCase : String → String) (dashboardSummary : DashboardSummary)
      (platformCosts : List PlatformCost),
      summary toLowerCase dashboardSummary platformCosts (selectionAfter ["gitlab"]) =
        localSummary toLowerCase platformCosts (selectionAfter ["gitlab"]) :=
  ⟨by decide,
    (summary_server_iff_universe ["gitlab"] (by decide)).2.2
      (fun h => absurd ((h "gitlab").mpr (by decide)) (by decide))⟩

/-- C3, as stated, fails: with every platform selected, a server summary of 15 runs and a
loaded list whose only record has 10 jobs, the fold over all records (10 runs), with or
without the platform filter, is not within `1e-6` of the summary the page displays
(15 runs). -/
theorem dual_source_equality_fails :
    selectsAll (selectionAfter []) ∧
    ¬ Summary.agrees (foldAll [⟨"github", some 5, some 10, some 2⟩])
        (summary asciiLower ⟨20, 15, 7, 8⟩ [⟨"github", some 5, some 10, some 2⟩]
          (selectionAfter [])) ∧
    ¬ Summary.agrees
        (localSummary asciiLower [⟨"github", some 5, some 10, some 2⟩] (selectionAfter []))
        (summary asciiLower ⟨20, 15, 7, 8⟩ [⟨"github", some 5, some 10, some 2⟩]
          (selectionAfter [])) := by
  have hsel : isAllSelected (selectionAfter []) = true := by decide
  have hlocal : localSummary asciiLower [⟨"github", some 5, some 10, some 2⟩]
      (selectionAfter []) = foldAll [⟨"github", some 5, some 10, some 2⟩] := by
    have hl : asciiLower "github" = "github" := by decide
    have hm : "github" ∈ selectionAfter [] := by decide
    simp [localSummary, selectedCosts, foldAll, List.filter, hl, hm]
  have hno : ¬ Summary.agrees (foldAll [⟨"github", some 5, some 10, some 2⟩])
      (summary asciiLower ⟨20, 15, 7, 8⟩ [⟨"github", some 5, some 10, some 2⟩]
        (selectionAfter [])) := by
    intro h
    have h2 := h.2.1
    simp [summary, hsel, serverSummary, foldAll, reducer, zeroSummary, orZero,
      withinRelTol] at h2
    norm_num [abs_of_nonneg, abs_of_nonpos] at h2
  exact ⟨by decide, hno, by rw [hlocal]; exact hno⟩

/-- C3, amended. With every platform selected the page displays the server summary as it
was received, whatever the per-platform list holds; the fold of the list over all records
agrees with it within `1e-6` in every field exactly when each of the list's four sums is
within `1e-6` of the corresponding server total, which the page neither checks nor
enforces. -/
theorem dual_source_agreement_iff (toLowerCase : String → String)
    (dashboardSummary : DashboardSummary) (platformCosts : List PlatformCost)
    (toggles : List String) (htoggles : ∀ p ∈ toggles, p ∈ platforms)
    (hall : selectsAll (selectionAfter toggles)) :
    summary toLowerCase dashboardSummary platformCosts (selectionAfter toggles) =
        serverSummary dashboardSummary ∧
    (Summary.agrees (foldAll platformCosts)
        (summary toLowerCase dashboardSummary platformCosts (selectionAfter toggles)) ↔
      withinRelTol (platformCosts.map (fun r => orZero r.total_cost_by_platform)).sum
          dashboardSummary.total_enterprise_ci_cd_cost ∧
        withinRelTol (platformCosts.map (fun r => orZero r.total_jobs)).sum
          dashboardSummary.total_runs_enterprise ∧
        withinRelTol (platformCosts.map (fun r => orZero r.failed_jobs)).sum
          dashboardSummary.failed_runs_enterprise ∧
        withinRelTol
          (platformCosts.map (fun r => orZero r.total_jobs - orZero r.failed_jobs)).sum
          dashboardSummary.successful_runs_enterprise) := by
  obtain ⟨hn, hs⟩ := selectionAfter_invariant toggles htoggles
  have hguard : isAllSelected (selectionAfter toggles) = true :=
    (isAllSelected_iff_selectsAll _ hn hs).mpr hall
  have hsum : summary toLowerCase dashboardSummary platformCosts (selectionAfter toggles) =
      serverSummary dashboardSummary := by simp [summary, hguard]
  refine ⟨hsum, ?_⟩
  rw [hsum, foldAll_eq_sums]
  simp [Summary.agrees, serverSummary]

/-- The example of the specification, whose server totals match the list: the page shows
the server summary and the fold over both records agrees with it. -/
theorem dual_source_agreement_iff_witness :
    (∀ p ∈ ([] : List String), p ∈ platforms) ∧ selectsAll (selectionAfter []) ∧
    summary asciiLower ⟨20, 15, 7, 8⟩
        [⟨"github", some 5, some 10, some 2⟩, ⟨"gitlab", some 15, some 5, some 5⟩]
        (selectionAfter []) = ⟨20, 15, 7, 8⟩ ∧
    Summary.agrees
      (foldAll [⟨"github", some 5, some 10, some 2⟩, ⟨"gitlab", some 15, some 5, some 5⟩])
      (summary asciiLower ⟨20, 15, 7, 8⟩
        [⟨"github", some 5, some 10, some 2⟩, ⟨"gitlab", some 15, some 5, some 5⟩]
        (selectionAfter [])) := by
  have h := dual_source_agreement_iff asciiLower ⟨20, 15, 7, 8⟩
    [⟨"github", some 5, some 10, some 2⟩, ⟨"gitlab", some 15, some 5, some 5⟩] []
    (by decide) (by decide)
  refine ⟨by decide, by decide, h.1, h.2.mpr ?_⟩
  simp [withinRelTol, orZero]
  norm_num

end DashboardPage

/-! ## Grouping -/

theorem map_fst_pushTo {α : Type} (groups : Groups α) (k : String) (r : α) :
    (pushTo groups k r).map Prod.fst = groups.map Prod.fst := by
  unfold pushTo
  rw [List.map_map]
  apply List.map_congr_left
  intro e _
  simp only [Function.comp]
  split <;> rfl

theorem pushTo_of_not_mem {α : Type} (groups : Groups α) (k : String) (r : α)
    (h : k ∉ groups.map Prod.fst) : pushTo groups k r = groups := by
  unfold pushTo
  conv_rhs => rw [← List.map_id groups]
  apply List.map_congr_left
  intro e he
  have hne : e.1 ≠ k := fun heq => h (heq ▸ List.mem_map_of_mem Prod.fst he)
  simp [hne]

theorem concatGroups_pushTo {α : Type} (k : String) (r : α) :
    ∀ groups : Groups α, (groups.map Prod.fst).Nodup → k ∈ groups.map Prod.fst →
      (concatGroups (pushTo groups k r)).Perm (concatGroups groups ++ [r]) := by
  intro groups
  induction groups with
  | nil => intro _ h; simp at h
  | cons e es ih =>
    intro hn hk
    rw [List.map_cons, List.nodup_cons] at hn
    by_cases he : e.1 = k
    · have hes : k ∉ es.map Prod.fst := he ▸ hn.1
      have htail : pushTo es k r = es := pushTo_of_not_mem es k r hes
      have hcons : pushTo (e :: es) k r = (e.1, e.2 ++ [r]) :: es := by
        conv_rhs => rw [← htail]
        simp [pushTo, he]
      rw [hcons]
      simp only [concatGroups, List.flatMap_cons, List.append_assoc]
      exact List.Perm.append_left _ List.perm_append_comm
    · have hk2 : k ∈ es.map Prod.fst := by
        rw [List.map_cons, List.mem_cons] at hk
        rcases hk with hk | hk
        · exact absurd hk.symm he
        · exact hk
      have hcons : pushTo (e :: es) k r = e :: pushTo es k r := by
        simp [pushTo, he]
      rw [hcons]
      have := ih hn.2 hk2
      simp only [concatGroups, List.flatMap_cons, List.append_assoc] at this ⊢
      exact List.Perm.append_left _ this

theorem forEachGroup_append {α : Type} (platformOf : α → Option String) (r : α) :
    ∀ (l : List α) (groups : Groups α),
      forEachGroup platformOf groups (l ++ [r]) =
        (forEachGroup platformOf groups l).bind (fun g => groupStep platformOf g r) := by
  intro l
  induction l with
  | nil =>
    intro groups
    simp only [List.nil_append, forEachGroup, Option.some_bind]
    cases groupStep platformOf groups r <;> rfl
  | cons x xs ih =>
    intro groups
    simp only [List.cons_append, forEachGroup]
    cases groupStep platformOf groups x with
    | none => rfl
    | some g1 => exact ih g1

theorem groupByPlatform_append {α : Type} (platformOf : α → Option String) (l : List α)
    (r : α) :
    groupByPlatform platformOf (l ++ [r]) =
      (groupByPlatform platformOf l).bind (fun g => groupStep platformOf g r) :=
  forEachGroup_append platformOf r l []

/-- One more record keeps the grouping: pushing a record whose key is safe onto a grouping
of `l` gives a grouping of `l ++ [r]`, and the concatenated groups stay a permutation. -/
theorem groupStep_isGrouping {α : Type} (platformOf : α → Option String) (l : List α)
    (r : α) (groups : Groups α) (hg : IsGrouping platformOf groups l)
    (hperm : (concatGroups groups).Perm l)
    (hr : platformKey (platformOf r) ∉ objectPrototypeNames) :
    ∃ groups1, groupStep platformOf groups r = some groups1 ∧
      IsGrouping platformOf groups1 (l ++ [r]) ∧ (concatGroups groups1).Perm (l ++ [r]) := by
  obtain ⟨hn, hkeys, hvals⟩ := hg
  by_cases hk : platformKey (platformOf r) ∈ groups.map Prod.fst
  · refine ⟨pushTo groups (platformKey (platformOf r)) r, by simp [groupStep, hk], ⟨?_, ?_, ?_⟩, ?_⟩
    · rw [map_fst_pushTo]; exact hn
    · intro k
      rw [map_fst_pushTo, hkeys]
      constructor
      · rintro ⟨x, hx, hxk⟩
        exact ⟨x, List.mem_append_left _ hx, hxk⟩
      · rintro ⟨x, hx, hxk⟩
        rcases List.mem_append.mp hx with hx | hx
        · exact ⟨x, hx, hxk⟩
        · rw [List.mem_singleton.mp hx] at hxk
          exact (hkeys k).mp (hxk ▸ hk)
    · intro e1 he1
      obtain ⟨e, he, rfl⟩ := List.mem_map.mp he1
      by_cases hek : e.1 = platformKey (platformOf r)
      · simp [hek, List.filter_append, List.filter_cons, hvals e he]
      · have hek2 : ¬ platformKey (platformOf r) = e.1 := fun h => hek h.symm
        simp [hek, hek2, List.filter_append, List.filter_cons, hvals e he]
    · exact (concatGroups_pushTo _ r groups hn hk).trans (hperm.append_right [r])
  · have hnone : ∀ x ∈ l, platformKey (platformOf x) ≠ platformKey (platformOf r) :=
      fun x hx hxk => hk ((hkeys _).mpr ⟨x, hx, hxk⟩)
    have hstep : groupStep platformOf groups r =
        some (groups ++ [(platformKey (platformOf r), [r])]) := by
      have hpush : pushTo (groups ++ [(platformKey (platformOf r), [])])
          (platformKey (platformOf r)) r =
          groups ++ [(platformKey (platformOf r), [r])] := by
        have h1 := pushTo_of_not_mem groups (platformKey (platformOf r)) r hk
        unfold pushTo at h1 ⊢
        rw [List.map_append, h1]
        simp
      simp [groupStep, hk, hr, hpush]
    refine ⟨_, hstep, ⟨?_, ?_, ?_⟩, ?_⟩
    · rw [List.map_append]
      exact List.Nodup.append hn (List.nodup_singleton _) (by simpa using hk)
    · intro k
      rw [List.map_append, List.mem_append, hkeys]
      constructor
      · rintro (⟨x, hx, hxk⟩ | hk1)
        · exact ⟨x, List.mem_append_left _ hx, hxk⟩
        · refine ⟨r, by simp, ?_⟩
          have hk2 : k = platformKey (platformOf r) := by simpa using hk1
          exact hk2.symm
      · rintro ⟨x, hx, hxk⟩
        rcases List.mem_append.mp hx with hx | hx
        · exact Or.inl ⟨x, hx, hxk⟩
        · rw [List.mem_singleton.mp hx] at hxk
          exact Or.inr (by simp [hxk])
    · intro e he
      rcases List.mem_append.mp he with he | he
      · have hek : ¬ platformKey (platformOf r) = e.1 :=
          fun h => hk (h ▸ List.mem_map_of_mem Prod.fst he)
        simp [hek, List.filter_append, List.filter_cons, hvals e he]
      · rw [List.mem_singleton.mp he]
        have hfil : l.filter
            (fun x => decide (platformKey (platformOf x) = platformKey (platformOf r))) = [] := by
          rw [List.filter_eq_nil_iff]
          intro x hx
          simpa using hnone x hx
        simp [List.filter_append, List.filter_cons, hfil]
    · simp only [concatGroups, List.flatMap_append, List.flatMap_cons, List.flatMap_nil,
        List.append_nil] at hperm ⊢
      exact hperm.append_right [r]

/-- On a list whose platform keys avoid the members of `Object.prototype`, `groupBy`
returns, and what it returns is the grouping of the list; the groups concatenated are a
permutation of the list. -/
theorem groupByPlatform_isGrouping {α : Type} (platformOf : α → Option String)
    (l : List α) (hsafe : SafeKeys platformOf l) :
    ∃ groups, groupByPlatform platformOf l = some groups ∧
      IsGrouping platformOf groups l ∧ (concatGroups groups).Perm l := by
  induction l using List.reverseRecOn with
  | nil =>
    refine ⟨[], rfl, ⟨List.nodup_nil, ?_, ?_⟩, List.Perm.refl _⟩
    · intro k; simp
    · intro e he; simp at he
  | append_singleton xs x ih =>
    have hxs : SafeKeys platformOf xs := fun r hr => hsafe r (List.mem_append_left _ hr)
    have hx : platformKey (platformOf x) ∉ objectPrototypeNames :=
      hsafe x (List.mem_append_right _ (List.mem_singleton_self x))
    obtain ⟨g, hg, hgrp, hperm⟩ := ih hxs
    obtain ⟨g1, hstep, hgrp1, hperm1⟩ :=
      groupStep_isGrouping platformOf xs x g hgrp hperm hx
    exact ⟨g1, by rw [groupByPlatform_append, hg]; exact hstep, hgrp1, hperm1⟩

/-- As soon as one record has a platform key naming a member of `Object.prototype`,
`groupBy` throws. -/
theorem groupByPlatform_eq_none {α : Type} (platformOf : α → Option String)
    (l : List α) (hbad : ¬ SafeKeys platformOf l) :
    groupByPlatform platformOf l = none := by
  induction l using List.reverseRecOn with
  | nil => exact absurd (fun r hr => by simp at hr) hbad
  | append_singleton xs x ih =>
    rw [groupByPlatform_append]
    by_cases hxs : SafeKeys platformOf xs
    · obtain ⟨g, hg, ⟨_, hkeys, _⟩, _⟩ := groupByPlatform_isGrouping platformOf xs hxs
      have hx : platformKey (platformOf x) ∈ objectPrototypeNames := by
        by_contra hx
        apply hbad
        intro r hr
        rcases List.mem_append.mp hr with hr | hr
        · exact hxs r hr
        · rw [List.mem_singleton.mp hr]; exact hx
      have hk : platformKey (platformOf x) ∉ g.map Prod.fst := by
        intro hmem
        obtain ⟨y, hy, hyk⟩ := (hkeys _).mp hmem
        exact hxs y hy (hyk ▸ hx)
      rw [hg]
      simp [groupStep, hk, hx]
    · rw [ih hxs]; rfl

/-- Every record of a grouped list lies in exactly one group, each group is non-empty and
is a sublist of the input, and the groups concatenated in any order of the keys are a
permutation of the input. -/
theorem isGrouping_partition {α : Type} (platformOf : α → Option String)
    (groups : Groups α) (l : List α) (hg : IsGrouping platformOf groups l)
    (hperm : (concatGroups groups).Perm l) :
    (∀ entries : Groups α, entries.Perm groups → (concatGroups entries).Perm l) ∧
    (∀ r ∈ l, ∃! e, e ∈ groups ∧ r ∈ e.2) ∧
    (∀ e ∈ groups, e.2 ≠ [] ∧ List.Sublist e.2 l) := by
  obtain ⟨_, hkeys, hvals⟩ := hg
  refine ⟨fun entries he => (List.Perm.flatMap_right Prod.snd he).trans hperm, ?_, ?_⟩
  · intro r hr
    obtain ⟨e, he, hek⟩ := List.mem_map.mp
      ((hkeys (platformKey (platformOf r))).mpr ⟨r, hr, rfl⟩)
    refine ⟨e, ⟨he, ?_⟩, ?_⟩
    · rw [hvals e he, List.mem_filter]
      exact ⟨hr, by simp [hek]⟩
    · rintro e1 ⟨he1, hr1⟩
      rw [hvals e1 he1, List.mem_filter] at hr1
      have hk1 : platformKey (platformOf r) = e1.1 := by simpa using hr1.2
      have h2 : e1.2 = e.2 := by rw [hvals e1 he1, hvals e he, ← hk1, hek]
      exact Prod.ext (hk1.symm.trans hek.symm) h2
  · intro e he
    refine ⟨?_, by rw [hvals e he]; exact List.filter_sublist _⟩
    obtain ⟨r, hr, hrk⟩ := (hkeys e.1).mp (List.mem_map_of_mem Prod.fst he)
    intro hnil
    have hmem : r ∈ e.2 := by
      rw [hvals e he, List.mem_filter]
      exact ⟨hr, by simp [hrk]⟩
    rw [hnil] at hmem
    exact absurd hmem (List.not_mem_nil r)

/-- The keys of a grouping are the non-empty platform values of the input, plus
`"unknown"` when some record has no platform or an empty one. -/
theorem isGrouping_keys {α : Type} (platformOf : α → Option String)
    (groups : Groups α) (l : List α) (hg : IsGrouping platformOf groups l) (k : String) :
    k ∈ groups.map Prod.fst ↔
      (k ≠ "" ∧ ∃ r ∈ l, platformOf r = some k) ∨
      (k = "unknown" ∧ ∃ r ∈ l, platformOf r = none ∨ platformOf r = some "") := by
  rw [hg.2.1 k]
  constructor
  · rintro ⟨r, hr, hrk⟩
    cases hp : platformOf r with
    | none =>
      rw [hp] at hrk
      exact Or.inr ⟨by simpa [platformKey] using hrk.symm, r, hr, Or.inl hp⟩
    | some p =>
      rw [hp] at hrk
      by_cases hpe : p = ""
      · subst hpe
        exact Or.inr ⟨by simpa [platformKey] using hrk.symm, r, hr, Or.inr hp⟩
      · have hpk : p = k := by simpa [platformKey, hpe] using hrk
        subst hpk
        exact Or.inl ⟨hpe, r, hr, hp⟩
  · rintro (⟨hne, r, hr, hp⟩ | ⟨hk, r, hr, hp | hp⟩)
    · exact ⟨r, hr, by simp [hp, platformKey, hne]⟩
    · exact ⟨r, hr, by simp [hp, platformKey, hk]⟩
    · exact ⟨r, hr, by simp [hp, platformKey, hk]⟩

/-- C4. `groupBy` does not map every input: on a list holding one record whose platform is
`"constructor"` it throws instead of returning the mapping from `"constructor"` to that
record, on both pages. On every list whose platform keys avoid the member names of
`Object.prototype` it returns the grouping (`groupByPlatform_isGrouping`). -/
theorem groupBy_constructor_no_mapping :
    (Repositories.groupBy [⟨"svc", none, some "constructor", none, none⟩] = none ∧
      ¬ ∃ groups, Repositories.groupBy [⟨"svc", none, some "constructor", none, none⟩] =
          some groups ∧
        IsGrouping Repositories.Repo.platform groups
          [⟨"svc", none, some "constructor", none, none⟩]) ∧
    (TeamsPage.groupBy [⟨"core", some "constructor", none, none, none⟩] = none ∧
      ¬ ∃ groups, TeamsPage.groupBy [⟨"core", some "constructor", none, none, none⟩] =
          some groups ∧
        IsGrouping TeamsPage.Team.platform groups
          [⟨"core", some "constructor", none, none, none⟩]) := by
  have h1 : Repositories.groupBy [⟨"svc", none, some "constructor", none, none⟩] = none := by
    decide
  have h2 : TeamsPage.groupBy [⟨"core", some "constructor", none, none, none⟩] = none := by
    decide
  refine ⟨⟨h1, ?_⟩, ⟨h2, ?_⟩⟩
  · rintro ⟨g, hg, _⟩
    rw [h1] at hg
    exact Option.noConfusion hg
  · rintro ⟨g, hg, _⟩
    rw [h2] at hg
    exact Option.noConfusion hg

/-- C5. On a list sorted by cost, descending, whose middle record has the platform
`"toString"`, `groupBy` throws, so there are no groups whose concatenation is a
permutation of the input. On every list whose platform keys avoid the member names of
`Object.prototype` the partition law holds (`groupByPlatform_isGrouping`,
`isGrouping_partition`). -/
theorem groupBy_toString_no_partition :
    (¬ ∃ groups,
        Repositories.groupBy
          [⟨"a", none, some "github", some 4, some 30⟩,
           ⟨"b", none, some "toString", some 2, some 20⟩,
           ⟨"c", none, some "github", some 1, some 10⟩] = some groups ∧
        (concatGroups groups).Perm
          [⟨"a", none, some "github", some 4, some 30⟩,
           ⟨"b", none, some "toString", some 2, some 20⟩,
           ⟨"c", none, some "github", some 1, some 10⟩]) ∧
    (¬ ∃ groups,
        TeamsPage.groupBy
          [⟨"a", some "github", some 4, some 30, some 0⟩,
           ⟨"b", some "toString", some 2, some 20, some 1⟩,
           ⟨"c", some "github", some 1, some 10, some 1⟩] = some groups ∧
        (concatGroups groups).Perm
          [⟨"a", some "github", some 4, some 30, some 0⟩,
           ⟨"b", some "toString", some 2, some 20, some 1⟩,
           ⟨"c", some "github", some 1, some 10, some 1⟩]) := by
  have h1 : Repositories.groupBy
      [⟨"a", none, some "github", some 4, some 30⟩,
           ⟨"b", none, some "toString", some 2, some 20⟩,
       ⟨"c", none, some "github", some 1, some 10⟩] = none := by decide
  have h2 : TeamsPage.groupBy
      [⟨"a", some "github", some 4, some 30, some 0⟩,
           ⟨"b", some "toString", some 2, some 20, some 1⟩,
       ⟨"c", some "github", some 1, some 10, some 1⟩] = none := by decide
  refine ⟨?_, ?_⟩
  · rintro ⟨g, hg, _⟩
    rw [h1] at hg
    exact Option.noConfusion hg
  · rintro ⟨g, hg, _⟩
    rw [h2] at hg
    exact Option.noConfusion hg

/-- C6. On a list with the platforms `"gitlab"` and `"valueOf"`, `groupBy` throws, so it
returns no mapping whose key set is the set of platform values of the input. On every
list whose platform keys avoid the member names of `Object.prototype` the key set is as
claimed and no group is empty (`isGrouping_keys`, `isGrouping_partition`); the empty input
gives the empty mapping. -/
theorem groupBy_valueOf_no_key_set :
    Repositories.groupBy [] = some [] ∧ TeamsPage.groupBy [] = some [] ∧
    (¬ ∃ groups,
        Repositories.groupBy
          [⟨"a", none, some "gitlab", none, none⟩, ⟨"b", none, some "valueOf", none, none⟩] =
          some groups ∧
        ∀ k, k ∈ groups.map Prod.fst ↔ k = "gitlab" ∨ k = "valueOf") ∧
    (¬ ∃ groups,
        TeamsPage.groupBy
          [⟨"a", some "gitlab", none, none, none⟩, ⟨"b", some "valueOf", none, none, none⟩] =
          some groups ∧
        ∀ k, k ∈ groups.map Prod.fst ↔ k = "gitlab" ∨ k = "valueOf") := by
  have h1 : Repositories.groupBy
      [⟨"a", none, some "gitlab", none, none⟩, ⟨"b", none, some "valueOf", none, none⟩] =
      none := by decide
  have h2 : TeamsPage.groupBy
      [⟨"a", some "gitlab", none, none, none⟩, ⟨"b", some "valueOf", none, none, none⟩] =
      none := by decide
  refine ⟨rfl, rfl, ?_, ?_⟩
  · rintro ⟨g, hg, _⟩
    rw [h1] at hg
    exact Option.noConfusion hg
  · rintro ⟨g, hg, _⟩
    rw [h2] at hg
    exact Option.noConfusion hg

/-! ## Sort state -/

/-- C7. On both per-platform pages, `handleSort` called with the current sort column keeps
the column and flips the order: `asc` becomes `desc` and `desc` becomes `asc`. -/
theorem handleSort_same_column_flips (state : SortState) (column : String)
    (hcol : column = state.sortBy) :
    ((PlatformTeamsPage.handleSort state column).sortBy = state.sortBy ∧
      (state.sortOrder = "asc" →
        (PlatformTeamsPage.handleSort state column).sortOrder = "desc") ∧
      (state.sortOrder = "desc" →
        (PlatformTeamsPage.handleSort state column).sortOrder = "asc")) ∧
    ((PlatformRepositoriesPage.handleSort state column).sortBy = state.sortBy ∧
      (state.sortOrder = "asc" →
        (PlatformRepositoriesPage.handleSort state column).sortOrder = "desc") ∧
      (state.sortOrder = "desc" →
        (PlatformRepositoriesPage.handleSort state column).sortOrder = "asc")) := by
  subst hcol
  refine ⟨⟨?_, ?_, ?_⟩, ⟨?_, ?_, ?_⟩⟩
  · simp [PlatformTeamsPage.handleSort]
  · intro h; simp [PlatformTeamsPage.handleSort, h]
  · intro h; simp [PlatformTeamsPage.handleSort, h]
  · simp [PlatformRepositoriesPage.handleSort]
  · intro h; simp [PlatformRepositoriesPage.handleSort, h]
  · intro h; simp [PlatformRepositoriesPage.handleSort, h]

/-- From the initial state (cost, descending) a click on the cost column gives (cost,
ascending), and a second click gives (cost, descending) again. -/
theorem handleSort_same_column_flips_witness :
    PlatformTeamsPage.handleSort PlatformTeamsPage.initialSortState "total_cost" =
        { sortBy := "total_cost", sortOrder := "asc" } ∧
    (PlatformRepositoriesPage.handleSort { sortBy := "total_cost", sortOrder := "asc" }
        "total_cost").sortOrder = "desc" :=
  ⟨SortState.ext
      (handleSort_same_column_flips PlatformTeamsPage.initialSortState "total_cost" rfl).1.1
      ((handleSort_same_column_flips PlatformTeamsPage.initialSortState "total_cost"
        rfl).1.2.2 rfl),
    (handleSort_same_column_flips { sortBy := "total_cost", sortOrder := "asc" } "total_cost"
      rfl).2.2.1 rfl⟩

/-- C8, as stated, fails: from the initial state (cost, descending) a click on the string
column `team_name` of the teams table, or `repo_name` of the repositories table, selects
that column with order `desc`, not `asc`. -/
theorem handleSort_string_column_desc :
    ("team_name" ∈ PlatformTeamsPage.sortColumns ∧ "team_name" ∈ stringColumns ∧
      "team_name" ≠ PlatformTeamsPage.initialSortState.sortBy ∧
      PlatformTeamsPage.handleSort PlatformTeamsPage.initialSortState "team_name" =
        { sortBy := "team_name", sortOrder := "desc" } ∧
      (PlatformTeamsPage.handleSort PlatformTeamsPage.initialSortState
        "team_name").sortOrder ≠ "asc") ∧
    ("repo_name" ∈ PlatformRepositoriesPage.sortColumns ∧ "repo_name" ∈ stringColumns ∧
      "repo_name" ≠ PlatformRepositoriesPage.initialSortState.sortBy ∧
      PlatformRepositoriesPage.handleSort PlatformRepositoriesPage.initialSortState
        "repo_name" = { sortBy := "repo_name", sortOrder := "desc" } ∧
      (PlatformRepositoriesPage.handleSort PlatformRepositoriesPage.initialSortState
        "repo_name").sortOrder ≠ "asc") := by
  decide

/-- C8, amended. On both per-platform pages, `handleSort` called with a column that differs
from the current sort column selects that column with order `desc`, for string columns and
numeric columns alike. -/
theorem handleSort_other_column_desc (state : SortState) (column : String)
    (hcol : column ≠ state.sortBy) :
    PlatformTeamsPage.handleSort state column = { sortBy := column, sortOrder := "desc" } ∧
    PlatformRepositoriesPage.handleSort state column =
      { sortBy := column, sortOrder := "desc" } := by
  have h : ¬ state.sortBy = column := fun h => hcol h.symm
  exact ⟨by simp [PlatformTeamsPage.handleSort, h],
    by simp [PlatformRepositoriesPage.handleSort, h]⟩

/-- From (cost, ascending) a click on the depth column gives (depth, descending) and a
click on the parent-team column gives (parent team, descending). -/
theorem handleSort_other_column_desc_witness :
    PlatformTeamsPage.handleSort { sortBy := "total_cost", sortOrder := "asc" } "depth" =
        { sortBy := "depth", sortOrder := "desc" } ∧
    PlatformRepositoriesPage.handleSort { sortBy := "total_cost", sortOrder := "asc" }
        "team_name" = { sortBy := "team_name", sortOrder := "desc" } :=
  ⟨(handleSort_other_column_desc { sortBy := "total_cost", sortOrder := "asc" } "depth"
      (by decide)).1,
    (handleSort_other_column_desc { sortBy := "total_cost", sortOrder := "asc" } "team_name"
      (by decide)).2⟩

/-- C9. On `Repositories` and `TeamsPage`, `handleSortChange` called with a selectable
column that differs from the current sort column selects that column, with order `asc`
when it is the name column (`repo_name`, `team_name`) or `platform`, and with order `desc`
when it is `total_cost` or `total_jobs`. -/
theorem handleSortChange_other_column (prev : ListSortState) (key : String)
    (_hne : key ≠ prev.sortKey) :
    (key ∈ Repositories.sortOptions →
      (Repositories.handleSortChange prev key).sortKey = key ∧
      (key = "repo_name" ∨ key = "platform" →
        (Repositories.handleSortChange prev key).sortOrder = "asc") ∧
      (key = "total_cost" ∨ key = "total_jobs" →
        (Repositories.handleSortChange prev key).sortOrder = "desc")) ∧
    (key ∈ TeamsPage.sortOptions →
      (TeamsPage.handleSortChange prev key).sortKey = key ∧
      (key = "team_name" ∨ key = "platform" →
        (TeamsPage.handleSortChange prev key).sortOrder = "asc") ∧
      (key = "total_cost" ∨ key = "total_jobs" →
        (TeamsPage.handleSortChange prev key).sortOrder = "desc")) := by
  refine ⟨fun _ => ⟨rfl, ?_, ?_⟩, fun _ => ⟨rfl, ?_, ?_⟩⟩
  · intro h
    simp [Repositories.handleSortChange, h]
  · rintro (h | h) <;> subst h <;> simp [Repositories.handleSortChange]
  · intro h
    simp [TeamsPage.handleSortChange, h]
  · rintro (h | h) <;> subst h <;> simp [TeamsPage.handleSortChange]

/-- From the initial state (cost, descending), choosing the name column gives ascending
order on both pages, and from there choosing the job column gives descending order. -/
theorem handleSortChange_other_column_witness :
    (Repositories.handleSortChange Repositories.initialSortState "repo_name").sortOrder =
        "asc" ∧
    (TeamsPage.handleSortChange TeamsPage.initialSortState "team_name").sortOrder = "asc" ∧
    (TeamsPage.handleSortChange { sortKey := "team_name", sortOrder := "asc" }
        "total_jobs").sortOrder = "desc" :=
  ⟨((handleSortChange_other_column Repositories.initialSortState "repo_name"
      (by decide)).1 (by decide)).2.1 (Or.inl rfl),
    ((handleSortChange_other_column TeamsPage.initialSortState "team_name"
      (by decide)).2 (by decide)).2.1 (Or.inl rfl),
    ((handleSortChange_other_column { sortKey := "team_name", sortOrder := "asc" }
      "total_jobs" (by decide)).2 (by decide)).2.2 (Or.inr rfl)⟩

/-- The sort order stays one of `asc` and `desc` under `handleSort`. -/
theorem handleSort_orderValid (state : SortState) (column : String) :
    (PlatformTeamsPage.handleSort state column).orderValid ∧
    (PlatformRepositoriesPage.handleSort state column).orderValid := by
  unfold SortState.orderValid PlatformTeamsPage.handleSort PlatformRepositoriesPage.handleSort
  by_cases h : state.sortBy = column <;> by_cases h2 : state.sortOrder = "asc" <;>
    simp [h, h2]

/-- Every sort state a per-platform page reaches by clicks has a valid order. -/
theorem orderValid_after_clicks (clicks : List String) :
    (clicks.foldl PlatformTeamsPage.handleSort
        PlatformTeamsPage.initialSortState).orderValid ∧
    (clicks.foldl PlatformRepositoriesPage.handleSort
        PlatformRepositoriesPage.initialSortState).orderValid := by
  induction clicks using List.reverseRecOn with
  | nil => exact ⟨Or.inr rfl, Or.inr rfl⟩
  | append_singleton cs c _ =>
    rw [List.foldl_append, List.foldl_append]
    exact ⟨(handleSort_orderValid _ c).1, (handleSort_orderValid _ c).2⟩

/-- C10. On both per-platform pages, for every loaded row list and every sort state whose
sort column is `column`, two calls of `handleSort` with `column` in succession give back
the sort state from before the first call, and hence the same ordered rows. -/
theorem handleSort_twice_restores (stringToNumber : String → Option ℚ) (rows : List Row)
    (state : SortState) (column : String) (hcol : state.sortBy = column)
    (hvalid : state.orderValid) :
    (PlatformTeamsPage.handleSort (PlatformTeamsPage.handleSort state column) column =
        state ∧
      PlatformTeamsPage.sortedTeams stringToNumber rows
          (PlatformTeamsPage.handleSort (PlatformTeamsPage.handleSort state column) column) =
        PlatformTeamsPage.sortedTeams stringToNumber rows state) ∧
    (PlatformRepositoriesPage.handleSort
          (PlatformRepositoriesPage.handleSort state column) column = state ∧
      PlatformRepositoriesPage.sortedRepos stringToNumber rows
          (PlatformRepositoriesPage.handleSort
            (PlatformRepositoriesPage.handleSort state column) column) =
        PlatformRepositoriesPage.sortedRepos stringToNumber rows state) := by
  subst hcol
  have h1 : PlatformTeamsPage.handleSort
      (PlatformTeamsPage.handleSort state state.sortBy) state.sortBy = state := by
    rcases hvalid with h | h <;>
      exact SortState.ext (by simp [PlatformTeamsPage.handleSort])
        (by simp [PlatformTeamsPage.handleSort, h])
  have h2 : PlatformRepositoriesPage.handleSort
      (PlatformRepositoriesPage.handleSort state state.sortBy) state.sortBy = state := by
    rcases hvalid with h | h <;>
      exact SortState.ext (by simp [PlatformRepositoriesPage.handleSort])
        (by simp [PlatformRepositoriesPage.handleSort, h])
  exact ⟨⟨h1, by rw [h1]⟩, ⟨h2, by rw [h2]⟩⟩

/-- Three teams with costs 3, 5 and none, sorted by cost descending: after two clicks on
the cost column the state is the initial one again and the rows are ordered as before. -/
theorem handleSort_twice_restores_witness :
    PlatformTeamsPage.initialSortState.sortBy = "total_cost" ∧
    PlatformTeamsPage.initialSortState.orderValid ∧
    PlatformTeamsPage.handleSort
        (PlatformTeamsPage.handleSort PlatformTeamsPage.initialSortState "total_cost")
        "total_cost" = PlatformTeamsPage.initialSortState ∧
    PlatformTeamsPage.sortedTeams (fun _ => none)
        [[("total_cost", Value.number 3)], [("total_cost", Value.number 5)], []]
        (PlatformTeamsPage.handleSort
          (PlatformTeamsPage.handleSort PlatformTeamsPage.initialSortState "total_cost")
          "total_cost") =
      PlatformTeamsPage.sortedTeams (fun _ => none)
        [[("total_cost", Value.number 3)], [("total_cost", Value.number 5)], []]
        PlatformTeamsPage.initialSortState :=
  ⟨rfl, Or.inr rfl,
    (handleSort_twice_restores (fun _ => none)
      [[("total_cost", Value.number 3)], [("total_cost", Value.number 5)], []]
      PlatformTeamsPage.initialSortState "total_cost" rfl (Or.inr rfl)).1.1,
    (handleSort_twice_restores (fun _ => none)
      [[("total_cost", Value.number 3)], [("total_cost", Value.number 5)], []]
      PlatformTeamsPage.initialSortState "total_cost" rfl (Or.inr rfl)).1.2⟩

/-! ## Chart descriptor -/

namespace DashboardPage

theorem filter_eq_find_cons (p : PlatformCost → Bool) :
    ∀ data : List PlatformCost, (∃ d ∈ data, p d = true) →
      ∃ first rest, data.find? p = some first ∧ data.filter p = first :: rest := by
  intro data
  induction data with
  | nil => rintro ⟨d, hd, _⟩; exact absurd hd (List.not_mem_nil d)
  | cons x xs ih =>
    intro h
    by_cases hx : p x = true
    · exact ⟨x, xs.filter p, by simp [List.find?, hx], by simp [List.filter, hx]⟩
    · have hx2 : p x = false := by simpa using hx
      obtain ⟨d, hd, hpd⟩ := h
      have hd2 : d ∈ xs := by
        rcases List.mem_cons.mp hd with hd | hd
        · rw [hd] at hpd; exact absurd hpd hx
        · exact hd
      obtain ⟨first, rest, hf, hr⟩ := ih ⟨d, hd2, hpd⟩
      exact ⟨first, rest, by simp [List.find?, hx2, hf], by simp [List.filter, hx2, hr]⟩

/-- C11. For every loaded list holding a record whose lower-cased platform is selected,
when exactly one platform is selected the descriptor built is the bar shape with exactly
the two values "Successful Jobs" (jobs minus failed jobs) and "Failed Jobs" (failed jobs)
of the first such record, absent fields as 0, and the two counts sum to the jobs of that
record. -/
theorem chartSpec_single_platform (toLowerCase toUpperCase : String → String)
    (data : List PlatformCost) (selectedPlatforms : List String)
    (hone : selectedPlatforms.length = 1)
    (hrec : ∃ d ∈ data, toLowerCase d.platform ∈ selectedPlatforms) :
    ∃ platformData,
      data.find? (fun d => decide (toLowerCase d.platform ∈ selectedPlatforms)) =
        some platformData ∧
      chartSpec toLowerCase toUpperCase true data selectedPlatforms =
        some (ChartSpec.bar
          [{ type := "Successful Jobs"
             count := orZero platformData.total_jobs - orZero platformData.failed_jobs },
           { type := "Failed Jobs", count := orZero platformData.failed_jobs }]) ∧
      (orZero platformData.total_jobs - orZero platformData.failed_jobs) +
          orZero platformData.failed_jobs = orZero platformData.total_jobs := by
  obtain ⟨first, rest, hfind, hfilter⟩ :=
    filter_eq_find_cons (fun d => decide (toLowerCase d.platform ∈ selectedPlatforms)) data
      (by obtain ⟨d, hd, hm⟩ := hrec; exact ⟨d, hd, by simpa using hm⟩)
  refine ⟨first, hfind, ?_, by ring⟩
  unfold chartSpec
  simp only [hfilter, hone]
  simp

/-- With github alone selected and the record (10 jobs, 2 failed), the descriptor is the
bar shape with the counts 8 and 2. -/
theorem chartSpec_single_platform_witness :
    selectionAfter ["gitlab", "bitbucket"] = ["github"] ∧
    chartSpec asciiLower asciiUpper true
        [⟨"gitlab", some 15, some 5, some 5⟩, ⟨"GitHub", some 5, some 10, some 2⟩]
        (selectionAfter ["gitlab", "bitbucket"]) =
      some (ChartSpec.bar
        [{ type := "Successful Jobs", count := 8 }, { type := "Failed Jobs", count := 2 }]) := by
  have hsel : selectionAfter ["gitlab", "bitbucket"] = ["github"] := by decide
  refine ⟨hsel, ?_⟩
  obtain ⟨pd, hfind, hspec, _⟩ := chartSpec_single_platform asciiLower asciiUpper
    [⟨"gitlab", some 15, some 5, some 5⟩, ⟨"GitHub", some 5, some 10, some 2⟩]
    (selectionAfter ["gitlab", "bitbucket"]) (by decide)
    ⟨⟨"GitHub", some 5, some 10, some 2⟩, by simp, by decide⟩
  have hpd : pd = ⟨"GitHub", some 5, some 10, some 2⟩ := by
    have h2 : List.find? (fun d : PlatformCost => decide (asciiLower d.platform ∈
        selectionAfter ["gitlab", "bitbucket"]))
        [⟨"gitlab", some 15, some 5, some 5⟩, ⟨"GitHub", some 5, some 10, some 2⟩] =
        some ⟨"GitHub", some 5, some 10, some 2⟩ := by decide
    rw [h2] at hfind
    exact (Option.some.inj hfind).symm
  rw [hspec, hpd]
  simp [orZero]
  norm_num

/-- With the container mounted, a selection that does not consist of exactly one platform
and at least one matching record, the descriptor is the arc shape with one value per
matching record, in the order of the list: the capitalised platform and its cost. -/
theorem chartSpec_multi_platform (toLowerCase toUpperCase : String → String)
    (data : List PlatformCost) (selectedPlatforms : List String)
    (hmany : selectedPlatforms.length ≠ 1)
    (hrec : ∃ d ∈ data, toLowerCase d.platform ∈ selectedPlatforms) :
    chartSpec toLowerCase toUpperCase true data selectedPlatforms =
      some (ChartSpec.arc
        ((data.filter (fun d => decide (toLowerCase d.platform ∈ selectedPlatforms))).map
          (fun p =>
            { platform := capitalize toUpperCase p.platform
              cost := orZero p.total_cost_by_platform }))) := by
  obtain ⟨first, rest, _, hfilter⟩ :=
    filter_eq_find_cons (fun d => decide (toLowerCase d.platform ∈ selectedPlatforms)) data
      (by obtain ⟨d, hd, hm⟩ := hrec; exact ⟨d, hd, by simpa using hm⟩)
  unfold chartSpec
  simp only [hfilter]
  simp [hmany]

/-- The first row of the arc chart gets `Percent = 100` whatever the other rows hold: its
`TotalCost` is its own cost. -/
theorem percents_head (value : PlatformShare) (rest : List PlatformShare)
    (hcost : value.cost ≠ 0) : (percents (value :: rest)).head? = some (some 100) := by
  simp [percents, windowSum, percentOf, hcost]

/-- C12. On the example of the specification (costs 5 and 15, github and gitlab selected)
the descriptor is the arc shape with one value per record, but the field `Percent` that
its transform defines is 100 for the first record and 75 for the second, not 25 and 75:
the window transform has no `frame`, so `TotalCost` is a running sum and the percentages
sum to 175. -/
theorem chartSpec_percents_running_sum :
    selectionAfter ["bitbucket"] = ["github", "gitlab"] ∧
    chartSpec asciiLower asciiUpper true
        [⟨"github", some 5, some 10, some 2⟩, ⟨"gitlab", some 15, some 5, some 5⟩]
        (selectionAfter ["bitbucket"]) =
      some (ChartSpec.arc [⟨"Github", 5⟩, ⟨"Gitlab", 15⟩]) ∧
    percents [⟨"Github", 5⟩, ⟨"Gitlab", 15⟩] = [some 100, some 75] ∧
    percents [⟨"Github", 5⟩, ⟨"Gitlab", 15⟩] ≠
      [some (5 / (5 + 15) * 100), some (15 / (5 + 15) * 100)] ∧
    ((percents [⟨"Github", 5⟩, ⟨"Gitlab", 15⟩]).map (fun p => p.getD 0)).sum = 175 := by
  have hp : percents [⟨"Github", 5⟩, ⟨"Gitlab", 15⟩] = [some 100, some 75] := by
    simp [percents, windowSum, percentOf]
    norm_num
  refine ⟨by decide, by decide, hp, ?_, ?_⟩
  · rw [hp]
    norm_num
  · rw [hp]
    norm_num

/-- C13, as stated, fails: with github alone selected and a github record whose cost and
job fields are all zero, a descriptor is built (the bar shape with two zero counts); with
two platforms selected and such records, the arc shape with zero costs is built. -/
theorem chartSpec_zero_fields_some :
    selectionAfter ["gitlab", "bitbucket"] = ["github"] ∧
    chartSpec asciiLower asciiUpper true [⟨"github", some 0, some 0, some 0⟩]
        (selectionAfter ["gitlab", "bitbucket"]) =
      some (ChartSpec.bar
        [{ type := "Successful Jobs", count := 0 }, { type := "Failed Jobs", count := 0 }]) ∧
    chartSpec asciiLower asciiUpper true
        [⟨"github", some 0, some 0, some 0⟩, ⟨"gitlab", none, none, none⟩]
        (selectionAfter ["bitbucket"]) =
      some (ChartSpec.arc [⟨"Github", 0⟩, ⟨"Gitlab", 0⟩]) := by
  have h1 : selectionAfter ["gitlab", "bitbucket"] = ["github"] := by decide
  have h2 : selectionAfter ["bitbucket"] = ["github", "gitlab"] := by decide
  have hl1 : asciiLower "github" = "github" := by decide
  have hl2 : asciiLower "gitlab" = "gitlab" := by decide
  have hu1 : capitalize asciiUpper "github" = "Github" := by decide
  have hu2 : capitalize asciiUpper "gitlab" = "Gitlab" := by decide
  refine ⟨h1, ?_, ?_⟩
  · rw [h1]
    simp [chartSpec, List.filter, hl1, orZero]
  · rw [h2]
    simp [chartSpec, List.filter, hl1, hl2, hu1, hu2, orZero]

/-- C13, amended. The chart selector yields no descriptor exactly when the chart container
is not mounted or no loaded record has its lower-cased platform in the selection; in
particular it yields none whenever zero platforms are selected. (A matching record whose
cost and job fields are all zero yields a descriptor like any other.) -/
theorem chartSpec_eq_none_iff (toLowerCase toUpperCase : String → String)
    (containerMounted : Bool) (data : List PlatformCost) (selectedPlatforms : List String) :
    (chartSpec toLowerCase toUpperCase containerMounted data selectedPlatforms = none ↔
      containerMounted = false ∨ ∀ d ∈ data, toLowerCase d.platform ∉ selectedPlatforms) ∧
    chartSpec toLowerCase toUpperCase containerMounted data [] = none := by
  have key : ∀ sel : List String,
      chartSpec toLowerCase toUpperCase containerMounted data sel = none ↔
        containerMounted = false ∨ ∀ d ∈ data, toLowerCase d.platform ∉ sel := by
    intro sel
    cases containerMounted with
    | false => simp [chartSpec]
    | true =>
      by_cases hrec : ∃ d ∈ data, toLowerCase d.platform ∈ sel
      · have hne : ¬ ∀ d ∈ data, toLowerCase d.platform ∉ sel := by
          intro h
          obtain ⟨d, hd, hm⟩ := hrec
          exact h d hd hm
        obtain ⟨first, rest, _, hfilter⟩ :=
          filter_eq_find_cons (fun d => decide (toLowerCase d.platform ∈ sel)) data
            (by obtain ⟨d, hd, hm⟩ := hrec; exact ⟨d, hd, by simpa using hm⟩)
        by_cases hone : sel.length = 1
        · simp only [chartSpec, hfilter, hone]
          simp [hne]
        · simp only [chartSpec, hfilter]
          simp [hone, hne]
      · have hall : ∀ d ∈ data, toLowerCase d.platform ∉ sel :=
          fun d hd hm => hrec ⟨d, hd, hm⟩
        have hfil : data.filter (fun d => decide (toLowerCase d.platform ∈ sel)) = [] := by
          rw [List.filter_eq_nil_iff]
          intro d hd
          simpa using hall d hd
        simp only [chartSpec, hfil]
        simp
        exact hall
  exact ⟨key selectedPlatforms, (key []).mpr (Or.inr (fun d _ => List.not_mem_nil _))⟩

/-! ## Empty selections, absent fields and signs of the fold -/

theorem localSummary_eq_sums (toLowerCase : String → String)
    (platformCosts : List PlatformCost) (selectedPlatforms : List String) :
    localSummary toLowerCase platformCosts selectedPlatforms =
      { totalCost := ((selectedCosts toLowerCase platformCosts selectedPlatforms).map
          (fun r => orZero r.total_cost_by_platform)).sum
        totalRuns := ((selectedCosts toLowerCase platformCosts selectedPlatforms).map
          (fun r => orZero r.total_jobs)).sum
        failedJobs := ((selectedCosts toLowerCase platformCosts selectedPlatforms).map
          (fun r => orZero r.failed_jobs)).sum
        successfulJobs := ((selectedCosts toLowerCase platformCosts selectedPlatforms).map
          (fun r => orZero r.total_jobs - orZero r.failed_jobs)).sum } := by
  unfold localSummary
  rw [foldl_reducer]
  simp [zeroSummary]

/-- C16. For every loaded list and every selection that no loaded record matches, the
summary computed by filter and reduce is all zero; so is the summary the page shows
whenever it computes one (not all platforms selected), in particular when the selection
holds no platform. The functions are total: no error is raised. -/
theorem summary_zero_of_no_match (toLowerCase : String → String)
    (dashboardSummary : DashboardSummary) (platformCosts : List PlatformCost)
    (selectedPlatforms : List String)
    (hnone : ∀ r ∈ platformCosts, toLowerCase r.platform ∉ selectedPlatforms) :
    localSummary toLowerCase platformCosts selectedPlatforms =
        { totalCost := 0, totalRuns := 0, failedJobs := 0, successfulJobs := 0 } ∧
    (isAllSelected selectedPlatforms = false →
      summary toLowerCase dashboardSummary platformCosts selectedPlatforms =
        { totalCost := 0, totalRuns := 0, failedJobs := 0, successfulJobs := 0 }) ∧
    summary toLowerCase dashboardSummary platformCosts [] =
        { totalCost := 0, totalRuns := 0, failedJobs := 0, successfulJobs := 0 } := by
  have hfil : selectedCosts toLowerCase platformCosts selectedPlatforms = [] := by
    unfold selectedCosts
    rw [List.filter_eq_nil_iff]
    intro r hr
    simpa using hnone r hr
  have hlocal : localSummary toLowerCase platformCosts selectedPlatforms =
      { totalCost := 0, totalRuns := 0, failedJobs := 0, successfulJobs := 0 } := by
    unfold localSummary
    rw [hfil]
    rfl
  refine ⟨hlocal, ?_, ?_⟩
  · intro hfalse
    simp only [summary, hfalse]
    exact hlocal
  · have hempty : isAllSelected [] = false := by decide
    simp [summary, hempty, localSummary, selectedCosts, zeroSummary]

/-- After all three platforms were toggled off the selection is empty and the summary of
two loaded records is all zero; with gitlab alone selected and only a github record
loaded it is all zero as well. -/
theorem summary_zero_of_no_match_witness :
    selectionAfter ["github", "gitlab", "bitbucket"] = [] ∧
    summary asciiLower ⟨20, 15, 7, 8⟩
        [⟨"github", some 5, some 10, some 2⟩, ⟨"gitlab", some 15, some 5, some 5⟩]
        (selectionAfter ["github", "gitlab", "bitbucket"]) =
      { totalCost := 0, totalRuns := 0, failedJobs := 0, successfulJobs := 0 } ∧
    summary asciiLower ⟨20, 15, 7, 8⟩ [⟨"github", some 5, some 10, some 2⟩]
        (selectionAfter ["github", "bitbucket"]) =
      { totalCost := 0, totalRuns := 0, failedJobs := 0, successfulJobs := 0 } := by
  have h0 : selectionAfter ["github", "gitlab", "bitbucket"] = [] := by decide
  refine ⟨h0, ?_, ?_⟩
  · rw [h0]
    exact (summary_zero_of_no_match asciiLower ⟨20, 15, 7, 8⟩
      [⟨"github", some 5, some 10, some 2⟩, ⟨"gitlab", some 15, some 5, some 5⟩] []
      (fun r _ => List.not_mem_nil _)).2.2
  · exact (summary_zero_of_no_match asciiLower ⟨20, 15, 7, 8⟩
      [⟨"github", some 5, some 10, some 2⟩] (selectionAfter ["github", "bitbucket"])
      (by decide)).2.1 (by decide)

theorem orZero_eq_getD (x : Option ℚ) : orZero x = x.getD 0 := by
  cases x with
  | none => rfl
  | some v =>
    by_cases hv : v = 0
    · simp [orZero, hv]
    · simp [orZero, hv]

theorem reducer_withZeros (acc : Summary) (r : PlatformCost) :
    reducer acc (withZeros r) = reducer acc r := by
  simp [reducer, withZeros, orZero_eq_getD]

theorem foldl_reducer_withZeros (l : List PlatformCost) :
    ∀ acc : Summary, (l.map withZeros).foldl reducer acc = l.foldl reducer acc := by
  induction l with
  | nil => intro acc; rfl
  | cons r rs ih =>
    intro acc
    rw [List.map_cons, List.foldl_cons, List.foldl_cons, reducer_withZeros, ih]

/-- C17. For every collection and every selection, the folded summary equals the folded
summary of the collection in which each absent cost, job or failed-job field is replaced
by 0, with or without the platform filter; and each of its four fields is the sum of
numbers, an absent field counting as the number 0. -/
theorem fold_withZeros (toLowerCase : String → String) (platformCosts : List PlatformCost)
    (selectedPlatforms : List String) :
    localSummary toLowerCase (platformCosts.map withZeros) selectedPlatforms =
        localSummary toLowerCase platformCosts selectedPlatforms ∧
    foldAll (platformCosts.map withZeros) = foldAll platformCosts ∧
    localSummary toLowerCase platformCosts selectedPlatforms =
      { totalCost := ((selectedCosts toLowerCase platformCosts selectedPlatforms).map
          (fun r => r.total_cost_by_platform.getD 0)).sum
        totalRuns := ((selectedCosts toLowerCase platformCosts selectedPlatforms).map
          (fun r => r.total_jobs.getD 0)).sum
        failedJobs := ((selectedCosts toLowerCase platformCosts selectedPlatforms).map
          (fun r => r.failed_jobs.getD 0)).sum
        successfulJobs := ((selectedCosts toLowerCase platformCosts selectedPlatforms).map
          (fun r => r.total_jobs.getD 0 - r.failed_jobs.getD 0)).sum } := by
  refine ⟨?_, foldl_reducer_withZeros platformCosts zeroSummary, ?_⟩
  · have hsel : selectedCosts toLowerCase (platformCosts.map withZeros) selectedPlatforms =
        (selectedCosts toLowerCase platformCosts selectedPlatforms).map withZeros := by
      unfold selectedCosts
      rw [List.filter_map]
      rfl
    unfold localSummary
    rw [hsel, foldl_reducer_withZeros]
  · rw [localSummary_eq_sums]
    simp only [orZero_eq_getD]

/-- C18. For every collection whose records have a non-negative cost and failed jobs
between 0 and the jobs (absent fields as 0), and every selection, the four fields of the
folded summary are non-negative. -/
theorem localSummary_nonneg (toLowerCase : String → String)
    (platformCosts : List PlatformCost) (selectedPlatforms : List String)
    (hrec : ∀ r ∈ platformCosts, 0 ≤ orZero r.total_cost_by_platform ∧
      0 ≤ orZero r.failed_jobs ∧ orZero r.failed_jobs ≤ orZero r.total_jobs) :
    0 ≤ (localSummary toLowerCase platformCosts selectedPlatforms).totalCost ∧
    0 ≤ (localSummary toLowerCase platformCosts selectedPlatforms).totalRuns ∧
    0 ≤ (localSummary toLowerCase platformCosts selectedPlatforms).failedJobs ∧
    0 ≤ (localSummary toLowerCase platformCosts selectedPlatforms).successfulJobs := by
  have hmem : ∀ r ∈ selectedCosts toLowerCase platformCosts selectedPlatforms,
      r ∈ platformCosts := fun r hr => (List.mem_filter.mp hr).1
  rw [localSummary_eq_sums]
  refine ⟨?_, ?_, ?_, ?_⟩ <;> apply List.sum_nonneg <;> intro x hx <;>
    obtain ⟨r, hr, rfl⟩ := List.mem_map.mp hx <;>
    have h := hrec r (hmem r hr)
  · exact h.1
  · exact le_trans h.2.1 h.2.2
  · exact h.2.1
  · exact sub_nonneg.mpr h.2.2

/-- The example of the specification satisfies the bounds, and with github and gitlab
selected the four totals 20, 15, 7 and 8 are non-negative. -/
theorem localSummary_nonneg_witness :
    0 ≤ (localSummary asciiLower
      [⟨"github", some 5, some 10, some 2⟩, ⟨"gitlab", some 15, some 5, some 5⟩]
      ["github", "gitlab"]).totalCost ∧
    0 ≤ (localSummary asciiLower
      [⟨"github", some 5, some 10, some 2⟩, ⟨"gitlab", some 15, some 5, some 5⟩]
      ["github", "gitlab"]).successfulJobs :=
  have h := localSummary_nonneg asciiLower
    [⟨"github", some 5, some 10, some 2⟩, ⟨"gitlab", some 15, some 5, some 5⟩]
    ["github", "gitlab"]
    (by
      intro r hr
      simp only [List.mem_cons, List.mem_singleton, List.not_mem_nil, or_false] at hr
      rcases hr with rfl | rfl <;> norm_num [orZero])
  ⟨h.1, h.2.2.2⟩

end DashboardPage

/-! ## Loading -/

/-- C14, as stated, fails: on the dashboard and on the teams page of a platform, when the
load issued first (R1) resolves after the load issued second (R2), the state after both
holds the data of R1, not of R2. -/
theorem stale_load_overwrites :
    ((1 : Nat) < 2 ∧
      DashboardPage.applyEvents { dashboardSummary := none, platformCosts := [] }
          [DashboardPage.LoadEvent.summaryResolved
              ⟨2, ⟨20, 15, 7, 8⟩, [⟨"gitlab", some 15, some 5, some 5⟩]⟩,
            DashboardPage.LoadEvent.costsResolved
              ⟨2, ⟨20, 15, 7, 8⟩, [⟨"gitlab", some 15, some 5, some 5⟩]⟩,
            DashboardPage.LoadEvent.summaryResolved
              ⟨1, ⟨5, 10, 2, 8⟩, [⟨"github", some 5, some 10, some 2⟩]⟩,
            DashboardPage.LoadEvent.costsResolved
              ⟨1, ⟨5, 10, 2, 8⟩, [⟨"github", some 5, some 10, some 2⟩]⟩] =
        { dashboardSummary := some ⟨5, 10, 2, 8⟩
          platformCosts := [⟨"github", some 5, some 10, some 2⟩] }) ∧
    (PlatformTeamsPage.applyEvents { summary := none, teams := [] }
          [PlatformTeamsPage.LoadEvent.teamsResolved
              ⟨2, [], [[("team_name", Value.string "new")]]⟩,
            PlatformTeamsPage.LoadEvent.teamsResolved
              ⟨1, [], [[("team_name", Value.string "old")]]⟩]).teams =
        [[("team_name", Value.string "old")]] ∧
    ([[("team_name", Value.string "old")]] : List Row) ≠
        [[("team_name", Value.string "new")]] := by
  decide

/-- C14, amended. On the dashboard and on the teams page of a platform every resolved load
is applied to the visible state, whatever its position in the order of issue: when the load
issued first (R1) resolves after the load issued second (R2), the state after both holds
the data of R1; in general the state holds the data of the response that arrived last. -/
theorem last_resolved_load_wins (r1 r2 : DashboardPage.Load) (t1 t2 : PlatformTeamsPage.Load)
    (state : DashboardPage.LoadState) (tstate : PlatformTeamsPage.LoadState)
    (earlier : List DashboardPage.LoadEvent) (tearlier : List PlatformTeamsPage.LoadEvent)
    (_hissue : r1.issued < r2.issued) (_htissue : t1.issued < t2.issued) :
    DashboardPage.applyEvents state
        [DashboardPage.LoadEvent.summaryResolved r2, DashboardPage.LoadEvent.costsResolved r2,
          DashboardPage.LoadEvent.summaryResolved r1,
          DashboardPage.LoadEvent.costsResolved r1] =
      { dashboardSummary := some r1.summaryData, platformCosts := r1.costsData } ∧
    PlatformTeamsPage.applyEvents tstate
        [PlatformTeamsPage.LoadEvent.summaryResolved t2,
          PlatformTeamsPage.LoadEvent.teamsResolved t2,
          PlatformTeamsPage.LoadEvent.summaryResolved t1,
          PlatformTeamsPage.LoadEvent.teamsResolved t1] =
      { summary := some t1.summaryData, teams := t1.teamsData } ∧
    (DashboardPage.applyEvents state
        (earlier ++ [DashboardPage.LoadEvent.costsResolved r1])).platformCosts =
      r1.costsData ∧
    (PlatformTeamsPage.applyEvents tstate
        (tearlier ++ [PlatformTeamsPage.LoadEvent.teamsResolved t1])).teams = t1.teamsData := by
  refine ⟨rfl, rfl, ?_, ?_⟩
  · simp [DashboardPage.applyEvents, List.foldl_append, DashboardPage.applyEvent]
  · simp [PlatformTeamsPage.applyEvents, List.foldl_append, PlatformTeamsPage.applyEvent]

/-- The dashboard loads for two date ranges: the earlier load resolves last and its data
stay on the page. -/
theorem last_resolved_load_wins_witness :
    (DashboardPage.applyEvents { dashboardSummary := none, platformCosts := [] }
        [DashboardPage.LoadEvent.summaryResolved
            ⟨2, ⟨20, 15, 7, 8⟩, [⟨"gitlab", some 15, some 5, some 5⟩]⟩,
          DashboardPage.LoadEvent.costsResolved
            ⟨2, ⟨20, 15, 7, 8⟩, [⟨"gitlab", some 15, some 5, some 5⟩]⟩,
          DashboardPage.LoadEvent.summaryResolved
            ⟨1, ⟨5, 10, 2, 8⟩, [⟨"github", some 5, some 10, some 2⟩]⟩,
          DashboardPage.LoadEvent.costsResolved
            ⟨1, ⟨5, 10, 2, 8⟩, [⟨"github", some 5, some 10, some 2⟩]⟩]).platformCosts =
      [⟨"github", some 5, some 10, some 2⟩] :=
  congrArg DashboardPage.LoadState.platformCosts
    (last_resolved_load_wins
      ⟨1, ⟨5, 10, 2, 8⟩, [⟨"github", some 5, some 10, some 2⟩]⟩
      ⟨2, ⟨20, 15, 7, 8⟩, [⟨"gitlab", some 15, some 5, some 5⟩]⟩
      ⟨1, [], []⟩ ⟨2, [], []⟩ { dashboardSummary := none, platformCosts := [] }
      { summary := none, teams := [] } [] [] (by decide) (by decide)).1

/-- C15, as stated, fails: on the repositories page of a platform a failed load replaces
the loaded rows by the empty list. -/
theorem failed_load_clears_repos :
    (PlatformRepositoriesPage.fetchSummaryAndRepos
        { summary := some [("total_cost", Value.number 7)]
          repos := [[("repo_name", Value.string "api")]] }
        PlatformRepositoriesPage.Outcome.failed).repos = [] ∧
    ([[("repo_name", Value.string "api")]] : List Row) ≠ [] := by
  decide

/-- C15, amended. A load whose request fails leaves rows and summary as they were on
`Repositories` and on `TeamsPage`; on the repositories page of a platform a failed load
leaves the summary as it was and replaces the rows by the empty list. -/
theorem failed_load_state (rstate : Repositories.LoadState) (tstate : TeamsPage.LoadState)
    (pstate : PlatformRepositoriesPage.LoadState) :
    Repositories.fetchData rstate Repositories.Outcome.failed = rstate ∧
    TeamsPage.fetchData tstate TeamsPage.Outcome.failed = tstate ∧
    (PlatformRepositoriesPage.fetchSummaryAndRepos pstate
        PlatformRepositoriesPage.Outcome.failed).summary = pstate.summary ∧
    (PlatformRepositoriesPage.fetchSummaryAndRepos pstate
        PlatformRepositoriesPage.Outcome.failed).repos = [] :=
  ⟨rfl, rfl, rfl, rfl⟩

/-! ## Ordered rows -/

theorem orderedInsert_congr {α : Type} (r s : α → α → Prop) [DecidableRel r]
    [DecidableRel s] (a : α) :
    ∀ l : List α, (∀ b ∈ l, r a b ↔ s a b) →
      List.orderedInsert r a l = List.orderedInsert s a l := by
  intro l
  induction l with
  | nil => intro _; rfl
  | cons b bs ih =>
    intro h
    have hb : r a b ↔ s a b := h b (List.mem_cons_self _ _)
    have htail : List.orderedInsert r a bs = List.orderedInsert s a bs :=
      ih (fun c hc => h c (List.mem_cons_of_mem _ hc))
    by_cases hr : r a b
    · simp [List.orderedInsert, hr, hb.mp hr]
    · have hs : ¬ s a b := fun hs => hr (hb.mpr hs)
      simp [List.orderedInsert, hr, hs, htail]

/-- Insertion sort depends on the relation only through the elements of the list. -/
theorem insertionSort_congr {α : Type} (r s : α → α → Prop) [DecidableRel r]
    [DecidableRel s] :
    ∀ l : List α, (∀ a ∈ l, ∀ b ∈ l, r a b ↔ s a b) →
      List.insertionSort r l = List.insertionSort s l := by
  intro l
  induction l with
  | nil => intro _; rfl
  | cons a as ih =>
    intro h
    have htail : List.insertionSort r as = List.insertionSort s as :=
      ih (fun x hx y hy => h x (List.mem_cons_of_mem _ hx) y (List.mem_cons_of_mem _ hy))
    simp only [List.insertionSort]
    rw [htail]
    apply orderedInsert_congr
    intro b hb
    have hb2 : b ∈ as := (List.perm_insertionSort s as).subset hb
    exact h a (List.mem_cons_self _ _) b (List.mem_cons_of_mem _ hb2)

/-- On a row whose column holds a number or nothing, the operand of the comparator is the
column value with an absent value as 0. -/
theorem toNumber_lookup (stringToNumber : String → Option ℚ) (column : String) (row : Row)
    (h : ∀ s : String, row.lookup column ≠ some (Value.string s)) :
    ((row.lookup column).getD (Value.number 0)).toNumber stringToNumber =
      some (columnValue column row) := by
  unfold columnValue
  cases hl : row.lookup column with
  | none => rfl
  | some v =>
    cases v with
    | number q => rfl
    | string s => exact absurd hl (h s)

theorem arraySort_ascending (stringToNumber : String → Option ℚ) (rows : List Row)
    (state : SortState) (hnum : NumericColumn state.sortBy rows)
    (hasc : state.sortOrder = "asc") :
    arraySort (compareRows stringToNumber state) rows =
      List.insertionSort
        (fun a b => columnValue state.sortBy a ≤ columnValue state.sortBy b) rows := by
  unfold arraySort
  apply insertionSort_congr
  intro a ha b hb
  simp only [compareRows, hasc, if_true, toNumber_lookup stringToNumber _ a (hnum a ha),
    toNumber_lookup stringToNumber _ b (hnum b hb), jsSub, Option.getD_some]
  exact sub_nonpos

theorem arraySort_descending (stringToNumber : String → Option ℚ) (rows : List Row)
    (state : SortState) (hnum : NumericColumn state.sortBy rows)
    (hdesc : state.sortOrder = "desc") :
    arraySort (compareRows stringToNumber state) rows =
      List.insertionSort
        (fun a b => columnValue state.sortBy b ≤ columnValue state.sortBy a) rows := by
  unfold arraySort
  apply insertionSort_congr
  intro a ha b hb
  have hne : ¬ state.sortOrder = "asc" := by rw [hdesc]; decide
  simp only [compareRows, hne, if_false, toNumber_lookup stringToNumber _ a (hnum a ha),
    toNumber_lookup stringToNumber _ b (hnum b hb), jsSub, Option.getD_some]
  exact sub_nonpos

theorem sorted_insertionSort_columnValue (column : String) (rows : List Row) :
    List.Sorted (fun a b => columnValue column a ≤ columnValue column b)
        (List.insertionSort
          (fun a b => columnValue column a ≤ columnValue column b) rows) ∧
    List.Sorted (fun a b => columnValue column b ≤ columnValue column a)
        (List.insertionSort
          (fun a b => columnValue column b ≤ columnValue column a) rows) := by
  haveI t1 : IsTotal Row (fun a b => columnValue column a ≤ columnValue column b) :=
    ⟨fun a b => le_total _ _⟩
  haveI t2 : IsTrans Row (fun a b => columnValue column a ≤ columnValue column b) :=
    ⟨fun _ _ _ h1 h2 => le_trans h1 h2⟩
  haveI t3 : IsTotal Row (fun a b => columnValue column b ≤ columnValue column a) :=
    ⟨fun a b => le_total _ _⟩
  haveI t4 : IsTrans Row (fun a b => columnValue column b ≤ columnValue column a) :=
    ⟨fun _ _ _ h1 h2 => le_trans h2 h1⟩
  exact ⟨List.sorted_insertionSort _ rows, List.sorted_insertionSort _ rows⟩

/-- C19. For every loaded row list, every numeric sort column and either direction, the
ordered rows of both per-platform pages are a permutation of the loaded rows, in
non-decreasing order of the column value when the order is `asc` and in non-increasing
order when it is `desc`, an absent value counting as 0. (The ordered rows are a new list;
the loaded list is an argument and is not modified.) -/
theorem sorted_rows_numeric_column (stringToNumber : String → Option ℚ) (rows : List Row)
    (state : SortState) (_hcol : state.sortBy ∈ numericColumns)
    (hnum : NumericColumn state.sortBy rows) :
    (PlatformTeamsPage.sortedTeams stringToNumber rows state).Perm rows ∧
    (PlatformRepositoriesPage.sortedRepos stringToNumber rows state).Perm rows ∧
    (state.sortOrder = "asc" →
      List.Sorted (fun a b => columnValue state.sortBy a ≤ columnValue state.sortBy b)
          (PlatformTeamsPage.sortedTeams stringToNumber rows state) ∧
        List.Sorted (fun a b => columnValue state.sortBy a ≤ columnValue state.sortBy b)
          (PlatformRepositoriesPage.sortedRepos stringToNumber rows state)) ∧
    (state.sortOrder = "desc" →
      List.Sorted (fun a b => columnValue state.sortBy b ≤ columnValue state.sortBy a)
          (PlatformTeamsPage.sortedTeams stringToNumber rows state) ∧
        List.Sorted (fun a b => columnValue state.sortBy b ≤ columnValue state.sortBy a)
          (PlatformRepositoriesPage.sortedRepos stringToNumber rows state)) := by
  refine ⟨List.perm_insertionSort _ rows, List.perm_insertionSort _ rows, ?_, ?_⟩
  · intro hasc
    unfold PlatformTeamsPage.sortedTeams PlatformRepositoriesPage.sortedRepos
    rw [arraySort_ascending stringToNumber rows state hnum hasc]
    exact ⟨(sorted_insertionSort_columnValue _ rows).1,
      (sorted_insertionSort_columnValue _ rows).1⟩
  · intro hdesc
    unfold PlatformTeamsPage.sortedTeams PlatformRepositoriesPage.sortedRepos
    rw [arraySort_descending stringToNumber rows state hnum hdesc]
    exact ⟨(sorted_insertionSort_columnValue _ rows).2,
      (sorted_insertionSort_columnValue _ rows).2⟩

/-- Three teams with costs 3, 5 and none under the initial state (cost, descending): the
ordered rows are a permutation of the loaded rows in non-increasing order of cost. -/
theorem sorted_rows_numeric_column_witness :
    "total_cost" ∈ numericColumns ∧
    (PlatformTeamsPage.sortedTeams (fun _ => none)
        [[("total_cost", Value.number 3)], [("total_cost", Value.number 5)], []]
        PlatformTeamsPage.initialSortState).Perm
      [[("total_cost", Value.number 3)], [("total_cost", Value.number 5)], []] ∧
    List.Sorted (fun a b => columnValue "total_cost" b ≤ columnValue "total_cost" a)
      (PlatformTeamsPage.sortedTeams (fun _ => none)
        [[("total_cost", Value.number 3)], [("total_cost", Value.number 5)], []]
        PlatformTeamsPage.initialSortState) :=
  have hnum : NumericColumn PlatformTeamsPage.initialSortState.sortBy
      [[("total_cost", Value.number 3)], [("total_cost", Value.number 5)], []] := by
    intro row hrow s
    simp only [List.mem_cons, List.mem_singleton, List.not_mem_nil, or_false] at hrow
    rcases hrow with rfl | rfl | rfl <;>
      simp [PlatformTeamsPage.initialSortState, List.lookup]
  have h := sorted_rows_numeric_column (fun _ => none)
    [[("total_cost", Value.number 3)], [("total_cost", Value.number 5)], []]
    PlatformTeamsPage.initialSortState (by decide) hnum
  ⟨by decide, h.1, (h.2.2.2 rfl).1⟩

/-! ## The comparator of the list pages -/

/-- On two mutually comparable key values the comparator returns 1 or -1; with order `asc`
it returns 1 exactly when the first key is greater, with order `desc` exactly when the
first key is less. -/
theorem compareKeys_comparable (stringLess : String → String → Bool)
    (stringToNumber : String → Option ℚ) (ka kb : Value) (hc : Comparable ka kb) :
    (compareKeys stringLess stringToNumber "asc" (some ka) (some kb) = 1 ∨
      compareKeys stringLess stringToNumber "asc" (some ka) (some kb) = -1) ∧
    (compareKeys stringLess stringToNumber "desc" (some ka) (some kb) = 1 ∨
      compareKeys stringLess stringToNumber "desc" (some ka) (some kb) = -1) ∧
    (compareKeys stringLess stringToNumber "asc" (some ka) (some kb) = 1 ↔
      keyLess stringLess kb ka) ∧
    (compareKeys stringLess stringToNumber "desc" (some ka) (some kb) = 1 ↔
      keyLess stringLess ka kb) := by
  have hd : ¬ ("desc" = "asc") := by decide
  cases ka with
  | number p =>
    cases kb with
    | number q =>
      by_cases h1 : q < p <;> by_cases h2 : p < q <;>
        simp [compareKeys, jsLess, Value.toNumber, keyLess, h1, h2, hd]
    | string t => exact absurd hc (by simp [Comparable])
  | string s =>
    cases kb with
    | number q => exact absurd hc (by simp [Comparable])
    | string t =>
      cases h1 : stringLess t s <;> cases h2 : stringLess s t <;>
        simp [compareKeys, jsLess, keyLess, h1, h2, hd]

theorem keyLess_irrefl (stringLess : String → String → Bool)
    (hirr : ∀ s, stringLess s s = false) (k : Value) : ¬ keyLess stringLess k k := by
  cases k with
  | number p => simp [keyLess]
  | string s => simp [keyLess, hirr s]

/-- C20. For every pair of records of `Repositories` or of `TeamsPage` whose key values are
mutually comparable (two numbers or two strings), the comparator returns 1 or -1, never 0:
with order `asc` it returns 1 exactly when the key of `a` is strictly greater than the key
of `b`, with order `desc` exactly when it is strictly less, and -1 otherwise; for equal
keys it returns -1 for (a, b) and for (b, a) in both orders. -/
theorem comparator_never_zero (stringLess : String → String → Bool)
    (stringToNumber : String → Option ℚ) (hirr : ∀ s, stringLess s s = false)
    (sortKey : String) (ka kb : Value) (hc : Comparable ka kb) :
    (∀ a b : Repositories.Repo, a.get sortKey = some ka → b.get sortKey = some kb →
      (Repositories.compareRepos stringLess stringToNumber ⟨sortKey, "asc"⟩ a b = 1 ∨
        Repositories.compareRepos stringLess stringToNumber ⟨sortKey, "asc"⟩ a b = -1) ∧
      (Repositories.compareRepos stringLess stringToNumber ⟨sortKey, "desc"⟩ a b = 1 ∨
        Repositories.compareRepos stringLess stringToNumber ⟨sortKey, "desc"⟩ a b = -1) ∧
      (Repositories.compareRepos stringLess stringToNumber ⟨sortKey, "asc"⟩ a b = 1 ↔
        keyLess stringLess kb ka) ∧
      (Repositories.compareRepos stringLess stringToNumber ⟨sortKey, "desc"⟩ a b = 1 ↔
        keyLess stringLess ka kb) ∧
      (ka = kb →
        Repositories.compareRepos stringLess stringToNumber ⟨sortKey, "asc"⟩ a b = -1 ∧
        Repositories.compareRepos stringLess stringToNumber ⟨sortKey, "asc"⟩ b a = -1 ∧
        Repositories.compareRepos stringLess stringToNumber ⟨sortKey, "desc"⟩ a b = -1 ∧
        Repositories.compareRepos stringLess stringToNumber ⟨sortKey, "desc"⟩ b a = -1)) ∧
    (∀ a b : TeamsPage.Team, a.get sortKey = some ka → b.get sortKey = some kb →
      (TeamsPage.compareTeams stringLess stringToNumber ⟨sortKey, "asc"⟩ a b = 1 ∨
        TeamsPage.compareTeams stringLess stringToNumber ⟨sortKey, "asc"⟩ a b = -1) ∧
      (TeamsPage.compareTeams stringLess stringToNumber ⟨sortKey, "desc"⟩ a b = 1 ∨
        TeamsPage.compareTeams stringLess stringToNumber ⟨sortKey, "desc"⟩ a b = -1) ∧
      (TeamsPage.compareTeams stringLess stringToNumber ⟨sortKey, "asc"⟩ a b = 1 ↔
        keyLess stringLess kb ka) ∧
      (TeamsPage.compareTeams stringLess stringToNumber ⟨sortKey, "desc"⟩ a b = 1 ↔
        keyLess stringLess ka kb) ∧
      (ka = kb →
        TeamsPage.compareTeams stringLess stringToNumber ⟨sortKey, "asc"⟩ a b = -1 ∧
        TeamsPage.compareTeams stringLess stringToNumber ⟨sortKey, "asc"⟩ b a = -1 ∧
        TeamsPage.compareTeams stringLess stringToNumber ⟨sortKey, "desc"⟩ a b = -1 ∧
        TeamsPage.compareTeams stringLess stringToNumber ⟨sortKey, "desc"⟩ b a = -1)) := by
  obtain ⟨h1, h2, h3, h4⟩ := compareKeys_comparable stringLess stringToNumber ka kb hc
  have hequal : ka = kb →
      compareKeys stringLess stringToNumber "asc" (some ka) (some kb) = -1 ∧
      compareKeys stringLess stringToNumber "asc" (some kb) (some ka) = -1 ∧
      compareKeys stringLess stringToNumber "desc" (some ka) (some kb) = -1 ∧
      compareKeys stringLess stringToNumber "desc" (some kb) (some ka) = -1 := by
    intro heq
    subst heq
    have hna := keyLess_irrefl stringLess hirr ka
    have ha : compareKeys stringLess stringToNumber "asc" (some ka) (some ka) = -1 :=
      h1.resolve_left (fun h => hna (h3.mp h))
    have hd : compareKeys stringLess stringToNumber "desc" (some ka) (some ka) = -1 :=
      h2.resolve_left (fun h => hna (h4.mp h))
    exact ⟨ha, ha, hd, hd⟩
  refine ⟨?_, ?_⟩
  · intro a b ha hb
    simp only [Repositories.compareRepos, ha, hb]
    exact ⟨h1, h2, h3, h4, hequal⟩
  · intro a b ha hb
    simp only [TeamsPage.compareTeams, ha, hb]
    exact ⟨h1, h2, h3, h4, hequal⟩

/-- Two repositories with the same cost 7 compare as -1 in both directions, in ascending
and in descending order; string keys are compared with the order of `String`. -/
theorem comparator_never_zero_witness :
    Repositories.compareRepos (fun s t => decide (s < t)) (fun _ => none)
        ⟨"total_cost", "desc"⟩ ⟨"api", none, some "github", some 3, some 7⟩
        ⟨"web", none, some "gitlab", some 4, some 7⟩ = -1 ∧
    Repositories.compareRepos (fun s t => decide (s < t)) (fun _ => none)
        ⟨"total_cost", "desc"⟩ ⟨"web", none, some "gitlab", some 4, some 7⟩
        ⟨"api", none, some "github", some 3, some 7⟩ = -1 :=
  have h := (comparator_never_zero (fun s t => decide (s < t)) (fun _ => none)
    (fun s => by simp) "total_cost" (Value.number 7) (Value.number 7)
    (by simp [Comparable])).1
  ⟨((h ⟨"api", none, some "github", some 3, some 7⟩
      ⟨"web", none, some "gitlab", some 4, some 7⟩ (by decide) (by decide)).2.2.2.2 rfl).2.2.1,
    ((h ⟨"api", none, some "github", some 3, some 7⟩
      ⟨"web", none, some "gitlab", some 4, some 7⟩ (by decide) (by decide)).2.2.2.2 rfl).2.2.2⟩

/-! ## Toggling platforms -/

namespace DashboardPage

/-- After `togglePlatform(p)` the platform `p` is selected iff it was not selected before,
and every other platform is selected iff it was. -/
theorem mem_togglePlatform (prev : List String) (platform : String) :
    (platform ∈ togglePlatform prev platform ↔ platform ∉ prev) ∧
    ∀ other, other ≠ platform → (other ∈ togglePlatform prev platform ↔ other ∈ prev) := by
  unfold togglePlatform
  by_cases h : platform ∈ prev
  · simp only [h, if_true]
    refine ⟨by simp [List.mem_filter, h], ?_⟩
    intro other hne
    simp [List.mem_filter, hne]
  · simp only [h, if_false]
    refine ⟨by simp [h], ?_⟩
    intro other hne
    simp [hne]

/-- C21. In every selection reached from the initial one by toggling platforms of the
universe, the selected list has no duplicates and holds only platforms of the universe;
its length is 3 exactly when every platform is selected; and `togglePlatform(p)` makes `p`
selected iff it was not selected before, leaving the membership of every other platform
as it was. -/
theorem selection_invariant (toggles : List String)
    (htoggles : ∀ p ∈ toggles, p ∈ platforms) :
    (selectionAfter toggles).Nodup ∧
    (∀ p ∈ selectionAfter toggles, p ∈ platforms) ∧
    ((selectionAfter toggles).length = 3 ↔ ∀ p ∈ platforms, p ∈ selectionAfter toggles) ∧
    ∀ p ∈ platforms,
      (p ∈ togglePlatform (selectionAfter toggles) p ↔ p ∉ selectionAfter toggles) ∧
      ∀ other, other ≠ p →
        (other ∈ togglePlatform (selectionAfter toggles) p ↔
          other ∈ selectionAfter toggles) := by
  obtain ⟨hn, hs⟩ := selectionAfter_invariant toggles htoggles
  refine ⟨hn, fun p hp => hs hp, ?_, fun p _ => mem_togglePlatform _ p⟩
  have h := isAllSelected_iff_selectsAll (selectionAfter toggles) hn hs
  unfold isAllSelected selectsAll at h
  rw [beq_iff_eq] at h
  exact h

/-- After the clicks gitlab, github, gitlab the selection is [bitbucket, gitlab]: no
duplicates, length 2, and a click on github selects it again while gitlab stays
selected. -/
theorem selection_invariant_witness :
    (∀ p ∈ ["gitlab", "github", "gitlab"], p ∈ platforms) ∧
    selectionAfter ["gitlab", "github", "gitlab"] = ["bitbucket", "gitlab"] ∧
    (selectionAfter ["gitlab", "github", "gitlab"]).Nodup ∧
    ("github" ∈ togglePlatform (selectionAfter ["gitlab", "github", "gitlab"]) "github" ↔
      "github" ∉ selectionAfter ["gitlab", "github", "gitlab"]) ∧
    ("gitlab" ∈ togglePlatform (selectionAfter ["gitlab", "github", "gitlab"]) "github" ↔
      "gitlab" ∈ selectionAfter ["gitlab", "github", "gitlab"]) :=
  have h := selection_invariant ["gitlab", "github", "gitlab"] (by decide)
  ⟨by decide, by decide, h.1, (h.2.2.2 "github" (by decide)).1,
    (h.2.2.2 "github" (by decide)).2 "gitlab" (by decide)⟩

end DashboardPage

/-! ## Summary of the teams page -/

namespace TeamsPage

/-- When every team has a cost, the sort of `mostExpensive` is the insertion sort by
non-increasing cost. -/
theorem arraySort_total_cost (teamsData : List Team)
    (hnum : ∀ t ∈ teamsData, t.total_cost ≠ none) :
    arraySort (fun a b => jsSub (Team.total_cost b) (Team.total_cost a)) teamsData =
      List.insertionSort
        (fun a b : Team => b.total_cost.getD 0 ≤ a.total_cost.getD 0) teamsData := by
  unfold arraySort
  apply insertionSort_congr
  intro a ha b hb
  obtain ⟨p, hp⟩ := Option.ne_none_iff_exists'.mp (hnum a ha)
  obtain ⟨q, hq⟩ := Option.ne_none_iff_exists'.mp (hnum b hb)
  simp only [hp, hq, jsSub, Option.getD_some]
  exact sub_nonpos

/-- The head of a list sorted by non-increasing cost costs at least as much as every team
of the list it was sorted from. -/
theorem head_insertionSort_max (teamsData : List Team) (top : Team) (rest : List Team)
    (hsorted : List.insertionSort
      (fun a b : Team => b.total_cost.getD 0 ≤ a.total_cost.getD 0) teamsData =
        top :: rest) :
    top ∈ teamsData ∧ ∀ t ∈ teamsData, t.total_cost.getD 0 ≤ top.total_cost.getD 0 := by
  haveI t1 : IsTotal Team (fun a b : Team => b.total_cost.getD 0 ≤ a.total_cost.getD 0) :=
    ⟨fun a b => le_total _ _⟩
  haveI t2 : IsTrans Team (fun a b : Team => b.total_cost.getD 0 ≤ a.total_cost.getD 0) :=
    ⟨fun _ _ _ h1 h2 => le_trans h2 h1⟩
  have hperm := List.perm_insertionSort
    (fun a b : Team => b.total_cost.getD 0 ≤ a.total_cost.getD 0) teamsData
  have hs := List.sorted_insertionSort
    (fun a b : Team => b.total_cost.getD 0 ≤ a.total_cost.getD 0) teamsData
  rw [hsorted] at hperm hs
  refine ⟨hperm.subset (List.mem_cons_self _ _), ?_⟩
  intro t ht
  rcases List.mem_cons.mp (hperm.symm.subset ht) with h | h
  · rw [h]
  · exact List.rel_of_sorted_cons hs t h

/-- C22. For every loaded list of teams that all have a cost: the teams stored on the page
are the loaded list, in its order; the derived `most_expensive_team` is 'N/A' when the list
is empty; and when it is not, there is a team of the list whose cost is greater than or
equal to that of every team of the list, and the derived value is the name of that team,
or 'N/A' when that name is empty. -/
theorem most_expensive_team_max (state : LoadState) (teamsData : List Team)
    (hnum : ∀ t ∈ teamsData, t.total_cost ≠ none) :
    (fetchData state (Outcome.responded teamsData)).teams = teamsData ∧
    (fetchData state (Outcome.responded teamsData)).summary.map
        TeamSummary.most_expensive_team = some (topTeamName Team.total_cost teamsData) ∧
    (teamsData = [] → topTeamName Team.total_cost teamsData = "N/A") ∧
    (teamsData ≠ [] →
      ∃ top ∈ teamsData,
        (∀ t ∈ teamsData, t.total_cost.getD 0 ≤ top.total_cost.getD 0) ∧
        (top.team_name ≠ "" → topTeamName Team.total_cost teamsData = top.team_name) ∧
        (top.team_name = "" → topTeamName Team.total_cost teamsData = "N/A")) := by
  refine ⟨rfl, rfl, ?_, ?_⟩
  · intro hnil
    rw [hnil]
    rfl
  · intro hne
    have hperm := List.perm_insertionSort
      (fun a b : Team => b.total_cost.getD 0 ≤ a.total_cost.getD 0) teamsData
    cases hsorted : List.insertionSort
        (fun a b : Team => b.total_cost.getD 0 ≤ a.total_cost.getD 0) teamsData with
    | nil =>
      rw [hsorted] at hperm
      exact absurd hperm.symm.eq_nil hne
    | cons top rest =>
      obtain ⟨hmem, hmax⟩ := head_insertionSort_max teamsData top rest hsorted
      refine ⟨top, hmem, hmax, ?_, ?_⟩
      · intro hname
        simp [topTeamName, arraySort_total_cost teamsData hnum, hsorted, hname]
      · intro hname
        simp [topTeamName, arraySort_total_cost teamsData hnum, hsorted, hname]

/-- Three teams costing 5, 9 and 9: the loaded list is stored as it came and the derived
name is that of the first team costing 9. -/
theorem most_expensive_team_max_witness :
    (fetchData { teams := [], summary := none }
        (Outcome.responded
          [⟨"core", some "github", some 3, some 5, some 0⟩,
           ⟨"web", some "gitlab", some 1, some 9, some 1⟩,
           ⟨"ops", some "gitlab", some 2, some 9, some 1⟩])).teams =
      [⟨"core", some "github", some 3, some 5, some 0⟩,
       ⟨"web", some "gitlab", some 1, some 9, some 1⟩,
       ⟨"ops", some "gitlab", some 2, some 9, some 1⟩] ∧
    topTeamName Team.total_cost
        [⟨"core", some "github", some 3, some 5, some 0⟩,
         ⟨"web", some "gitlab", some 1, some 9, some 1⟩,
         ⟨"ops", some "gitlab", some 2, some 9, some 1⟩] = "web" := by
  have hnum : ∀ t ∈ ([⟨"core", some "github", some 3, some 5, some 0⟩,
      ⟨"web", some "gitlab", some 1, some 9, some 1⟩,
      ⟨"ops", some "gitlab", some 2, some 9, some 1⟩] : List Team), t.total_cost ≠ none := by
    intro t ht
    simp only [List.mem_cons, List.mem_singleton, List.not_mem_nil, or_false] at ht
    rcases ht with rfl | rfl | rfl <;> simp
  have h := most_expensive_team_max { teams := [], summary := none }
    [⟨"core", some "github", some 3, some 5, some 0⟩,
     ⟨"web", some "gitlab", some 1, some 9, some 1⟩,
     ⟨"ops", some "gitlab", some 2, some 9, some 1⟩] hnum
  refine ⟨h.1, ?_⟩
  norm_num [topTeamName, arraySort, jsSub, List.insertionSort, List.orderedInsert]
  intro hname
  exact absurd hname (by decide)

end TeamsPage
